import Mathlib

/-!
Verification development for the navigation core of the `objexplore`
terminal object explorer.

The embedding follows the Python sources:

* `src/objexplore/cached_object.py` — `CachedObject.__init__`, `cache`,
  `set_filters`, `filter`;
* `src/objexplore/objexplore.py` — `Explorer.__init__` and the navigation
  branches of `Explorer.process_key_event`;
* `src/objexplore/overview_layout.py` — `OverviewState` / `PreviewState`.

Host reflection (`dir`, `getattr`, `repr`, `inspect.*`, `len`, `callable`,
`type`) is abstracted as a `Provider` record, one field per primitive the
source calls; a call that can raise is modelled with `Option` (or a
dedicated result type where the source distinguishes exception classes).
Rich `Text` values are modelled by their plain string content; purely
presentational fields of `CachedObject` (`text`, `pretty`, `title`, the
styling of every `Text`) are outside the scope of the embedding.  Python
object identity of freshly constructed `CachedObject`s is modelled by an
allocation counter threaded through every construction: each `__init__`
consumes one fresh `id`.

Files `stack_layout.py`, `explorer_layout.py`, `filter_layout.py` and
`utils.py` of the repository are not available; the operations they
contribute are modelled from the specification and are marked
`Modelled from the spec:` in their doc comments.
-/

/-- Opaque handle to a live Python object. -/
abbrev Obj := Nat

/-- Outcome of `len(obj)`: a value, a `TypeError` (the only class
`CachedObject.__init__` catches for `len`), or some other exception. -/
inductive LenRes where
  | ok (n : Nat)
  | typeError
  | raised
deriving DecidableEq

/-- The reflection provider: one field per host-introspection primitive used
by the source.  `Option` result `none` means the call raises. -/
structure Provider where
  dir : Obj → List String
  getattr : Obj → String → Option Obj
  callable : Obj → Bool
  isNone : Obj → Bool
  isStr : Obj → Bool
  typeStr : Obj → String
  strOf : Obj → String
  reprStr : Obj → Option String
  getdoc : Obj → Option String
  getsource : Obj → Option String
  lenOf : Obj → LenRes
  isbuiltin : Obj → Bool
  isclass : Obj → Bool
  isfunction : Obj → Bool
  ismethod : Obj → Bool
  ismodule : Obj → Bool
  dictItems : Obj → Option (List (Obj × Obj))
  seqItems : Obj → Option (List Obj)
  selectable : Obj → Bool

/-- The `index` argument of `CachedObject.__init__`: a dictionary key or a
sequence position. -/
inductive Idx where
  | key (k : Obj)
  | pos (n : Nat)
deriving DecidableEq

/-- Truthiness of the `parent_path` argument (`if not parent_path:` in the
source): absent or empty text is falsy. -/
def parentFalsy : Option String → Bool
  | none => true
  | some s => s = ""

/-- `index is not None` for the `index` argument; a `key` that wraps the
Python `None` object is the Python value `None` itself. -/
def idxNotNone (p : Provider) : Option Idx → Bool
  | none => false
  | some (.pos _) => true
  | some (.key k) => !p.isNone k

/-- Plain-text rendering of the `index` argument used for `dotpath`
(`cached_object.py` lines 45-49): strings are quoted, everything else is
`str(index)`. -/
def renderIndex (p : Provider) : Option Idx → String
  | none => ""
  | some (.pos n) => toString n
  | some (.key k) => if p.isStr k then "\"" ++ p.strOf k ++ "\"" else p.strOf k

/-- Python `attr.startswith("_")`. -/
def startsWithUnderscore (s : String) : Bool :=
  match s.data with
  | [] => false
  | c :: _ => c = '_'

/-- Lexicographic comparison of character lists by code point, with a
proper prefix ordered first — Python's string ordering. -/
def charListLe : List Char → List Char → Bool
  | [], _ => true
  | _ :: _, [] => false
  | c :: cs, d :: ds =>
    if c.toNat < d.toNat then true
    else if d.toNat < c.toNat then false
    else charListLe cs ds

/-- Python `s <= t` on strings. -/
def strLe (s t : String) : Bool := charListLe s.data t.data

/-- Stable insertion of a string into a sorted list (for Python `sorted`). -/
def insSorted (s : String) : List String → List String
  | [] => [s]
  | t :: ts => if strLe s t then s :: t :: ts else t :: insSorted s ts

/-- Python `sorted` on strings: stable lexicographic insertion sort. -/
def sortStrs (l : List String) : List String := l.foldr insSorted []

/-- The scalar fields `CachedObject.__init__` derives for a node (all fields
except the allocation identity and the child collections, which start
empty). -/
structure NodeCore where
  obj : Obj
  is_callable : Bool
  plain_attrs : List String
  dotpath : String
  attr_name : String
  typeof : String
  docstring : String
  repr : String
  plain_public_attributes : List String
  plain_private_attributes : List String
  source : String
  length : Option String
  isbuiltin : Bool
  isclass : Bool
  isfunction : Bool
  ismethod : Bool
  ismodule : Bool
deriving DecidableEq

/-- A freshly constructed `CachedObject`: its scalar fields plus the
allocation identity.  Children produced by `cache`/`filter` are stored in
this form (their own child collections are empty until they are cached
themselves). -/
structure NodeData extends NodeCore where
  id : Nat
deriving DecidableEq

/-- A filter predicate.  The source stores `List[types.FunctionType]`
applied to a child `CachedObject`; in the embedding a predicate acts
through the child's object handle (every quantity the node derives is a
function of the handle and the provider). -/
abbrev Pred := Obj → Bool

/-- `CachedObject`: scalar fields, identity, child collections and the
active filter list (`cached_object.py` lines 82-90, 110). -/
structure CachedObject extends NodeCore where
  id : Nat
  public_attributes : List (String × NodeData)
  private_attributes : List (String × NodeData)
  filtered_public_attributes : List (String × NodeData)
  filtered_private_attributes : List (String × NodeData)
  filtered_dict : List (Obj × String × NodeData)
  filtered_list : List (String × NodeData)
  filters : List Pred

/-- View a freshly built node as a full `CachedObject` (all child
collections empty, no filters), as `__init__` leaves it. -/
def NodeData.toCached (d : NodeData) : CachedObject :=
  { toNodeCore := d.toNodeCore
    id := d.id
    public_attributes := []
    private_attributes := []
    filtered_public_attributes := []
    filtered_private_attributes := []
    filtered_dict := []
    filtered_list := []
    filters := [] }

/-- The `dotpath` computation of `__init__` (`cached_object.py` lines
36-55): a `None` object short-circuits to the literal `"None"`; with an
attribute name the parent path (when truthy) is extended by `.name`; with
an index it is extended by `[rendered index]`; otherwise the `ValueError`
of line 55 is raised (only reachable for a non-`None` object). -/
def dotpathOf (p : Provider) (obj : Obj) (parent_path : Option String)
    (attr_name : Option String) (index : Option Idx) : Except String String :=
  if p.isNone obj then
    Except.ok "None"
  else
    match attr_name with
    | some a =>
      Except.ok (if parentFalsy parent_path then a else (parent_path.getD "") ++ "." ++ a)
    | none =>
      if idxNotNone p index then
        let ri := renderIndex p index
        Except.ok (if parentFalsy parent_path then "[" ++ ri ++ "]"
                   else (parent_path.getD "") ++ "[" ++ ri ++ "]")
      else
        Except.error "ValueError: Need to specify an attribute name or an index"

/-- `repr(self.obj)` (`cached_object.py` line 68; also line 57 when the
attribute name is falsy): an unguarded call, a raising `__repr__`
propagates. -/
def reprOf (p : Provider) (obj : Obj) : Except String String :=
  match p.reprStr obj with
  | some r => Except.ok r
  | none => Except.error "repr raised"

/-- The `length` computation (`cached_object.py` lines 99-102):
`str(len(self.obj))`, with only `TypeError` caught and degraded to the
absent sentinel; any other exception from `len` propagates. -/
def lengthOf (p : Provider) (obj : Obj) : Except String (Option String) :=
  match p.lenOf obj with
  | .ok n => Except.ok (some (toString n))
  | .typeError => Except.ok none
  | .raised => Except.error "len raised"

/-- The non-failing field derivations of `__init__` assembled into the
scalar record, given the already-computed `dotpath`, `repr` text, and
`length`: the weakref pseudo-member is removed from `dir`'s output (lines
71-73), the remaining names are partitioned by leading underscore and
sorted (lines 75-80), `attr_name` falls back to the repr when falsy (line
57), the docstring degrades to the literal `"None"` when missing or empty
(line 67), and `_source` degrades to `""` when `inspect.getsource` raises
(lines 92-95). -/
def mkNodeCore (p : Provider) (obj : Obj) (attr_name : Option String)
    (dp r : String) (len : Option String) : NodeCore :=
  let plain_attrs := (p.dir obj).erase "__weakref__"
  { obj := obj
    is_callable := p.callable obj
    plain_attrs := plain_attrs
    dotpath := dp
    attr_name :=
      match attr_name with
      | some a => if a = "" then r else a
      | none => r
    typeof := p.typeStr obj
    docstring :=
      match p.getdoc obj with
      | some d => if d = "" then "None" else d
      | none => "None"
    repr := r
    plain_public_attributes := sortStrs (plain_attrs.filter (fun a => !startsWithUnderscore a))
    plain_private_attributes := sortStrs (plain_attrs.filter (fun a => startsWithUnderscore a))
    source := (p.getsource obj).getD ""
    length := len
    isbuiltin := p.isbuiltin obj
    isclass := p.isclass obj
    isfunction := p.isfunction obj
    ismethod := p.ismethod obj
    ismodule := p.ismodule obj }

/-- `CachedObject.__init__` (`cached_object.py` lines 24-113), minus the
allocation identity.  The failing calls run in source order: the `dotpath`
branch (possible `ValueError`, line 55), then `repr` (line 68, unguarded),
then `len` (lines 99-102, only `TypeError` caught).  Everything else is
non-failing and assembled by `mkNodeCore`. -/
def CachedObject.initCore (p : Provider) (obj : Obj) (parent_path : Option String)
    (attr_name : Option String) (index : Option Idx) : Except String NodeCore := do
  let dotpath ← dotpathOf p obj parent_path attr_name index
  let r ← reprOf p obj
  let length ← lengthOf p obj
  Except.ok (mkNodeCore p obj attr_name dotpath r length)

/-- `CachedObject(...)`: run `__init__` and allocate a fresh identity. -/
def CachedObject.init (p : Provider) (ctr : Nat) (obj : Obj) (parent_path : Option String)
    (attr_name : Option String) (index : Option Idx) : Except String (NodeData × Nat) :=
  (CachedObject.initCore p obj parent_path attr_name index).map
    (fun core => ({ toNodeCore := core, id := ctr }, ctr + 1))

/-- The member-construction loop of `cache` (`cached_object.py` lines
126-131 / 134-139): one `CachedObject(getattr(self.obj, attr), ...)` per
enumerated name.  A failing `getattr` raises out of the loop — the source
has no `try`/`except` here. -/
def buildAttrs (p : Provider) (baseObj : Obj) (dot : String) :
    List String → Nat → Except String (List (String × NodeData) × Nat)
  | [], ctr => Except.ok ([], ctr)
  | a :: rest, ctr => do
    match p.getattr baseObj a with
    | none => Except.error ("AttributeError: " ++ a)
    | some child => do
      let (nd, ctr1) ← CachedObject.init p ctr child (some dot) (some a) none
      let (tail, ctr2) ← buildAttrs p baseObj dot rest ctr1
      Except.ok ((a, nd) :: tail, ctr2)

/-- The inner `for _filter in self.filters: if _filter(...): ...; break`
loop: true as soon as one active predicate matches. -/
def keepAny (fs : List Pred) (o : Obj) : Bool :=
  match fs with
  | [] => false
  | f :: rest => if f o then true else keepAny rest o

/-- The attribute-filtering loop (`cached_object.py` lines 152-157 /
163-168): keep exactly the entries some predicate matches, in order. -/
def filterLoopA (fs : List Pred) : List (String × NodeData) → List (String × NodeData)
  | [] => []
  | e :: rest =>
    if keepAny fs e.2.obj then e :: filterLoopA fs rest else filterLoopA fs rest

/-- One dictionary entry of `filtered_dict`: key, display line, child node. -/
abbrev DictEntry := Obj × String × NodeData

/-- The dict-materialization loop (`cached_object.py` lines 172-193): for
each key/value pair build the display line and a fresh child
`CachedObject(val, parent_path=self.dotpath, index=key)`.  The plain text
of the line is `" " + repr_key + ": " + repr_val` where string keys are
quoted and every other key renders as `str(key)` (the `int`/`float`/...
branch and the highlighter branch agree on plain text); `repr_val` is
`str(type(val))`. -/
def buildDictEntries (p : Provider) (dot : String) :
    List (Obj × Obj) → Nat → Except String (List DictEntry × Nat)
  | [], ctr => Except.ok ([], ctr)
  | (k, v) :: rest, ctr => do
    let reprKey := if p.isStr k then "\"" ++ p.strOf k ++ "\"" else p.strOf k
    let reprVal := p.typeStr v
    let line := " " ++ reprKey ++ ": " ++ reprVal
    let (nd, ctr1) ← CachedObject.init p ctr v (some dot) none (some (.key k))
    let (tail, ctr2) ← buildDictEntries p dot rest ctr1
    Except.ok ((k, line, nd) :: tail, ctr2)

/-- The dict-filtering pass (`cached_object.py` lines 194-201): iterate over
a copy of the freshly built dict; an entry some predicate matches is
reassigned to its own key (which leaves it in place), the rest are
deleted. -/
def dictDeleteLoop (fs : List Pred) : List DictEntry → List DictEntry → List DictEntry
  | acc, [] => acc
  | acc, e :: todo =>
    if keepAny fs e.2.2.obj then
      dictDeleteLoop fs acc todo
    else
      dictDeleteLoop fs (acc.filter (fun x => decide (x.1 ≠ e.1))) todo

/-- Run the dict-filtering pass over the built entries. -/
def dictDeletePass (fs : List Pred) (built : List DictEntry) : List DictEntry :=
  dictDeleteLoop fs built built

/-- The list/tuple/set materialization loop (`cached_object.py` lines
206-218): for each enumerated item build the display line
`" [" + str(index) + "] " + str(type(item))` and a fresh child
`CachedObject(item, parent_path=self.dotpath, index=index)`. -/
def buildListEntries (p : Provider) (dot : String) :
    List Obj → Nat → Nat → Except String (List (String × NodeData) × Nat)
  | [], _, ctr => Except.ok ([], ctr)
  | item :: rest, i, ctr => do
    let line := " [" ++ toString i ++ "] " ++ p.typeStr item
    let (nd, ctr1) ← CachedObject.init p ctr item (some dot) none (some (.pos i))
    let (tail, ctr2) ← buildListEntries p dot rest (i + 1) ctr1
    Except.ok ((line, nd) :: tail, ctr2)

/-- The list-filtering pass (`cached_object.py` lines 219-226): append to a
fresh list exactly the entries some predicate matches. -/
def listAppendPass (fs : List Pred) (built : List (String × NodeData)) :
    List (String × NodeData) :=
  built.foldl (fun acc e => if keepAny fs e.2.obj then acc ++ [e] else acc) []

/-- The dict block of `filter` (`cached_object.py` lines 170-193): rebuild
`filtered_dict` from scratch when the object is a dict, else leave it
empty. -/
def CachedObject.dictPart (p : Provider) (c : CachedObject) (ctr : Nat) :
    Except String (List DictEntry × Nat) :=
  match p.dictItems c.obj with
  | some kvs => buildDictEntries p c.dotpath kvs ctr
  | none => Except.ok ([], ctr)

/-- The list block of `filter` (`cached_object.py` lines 203-218): rebuild
`filtered_list` from scratch when the object is a list/tuple/set, else
leave it empty. -/
def CachedObject.listPart (p : Provider) (c : CachedObject) (ctr : Nat) :
    Except String (List (String × NodeData) × Nat) :=
  match p.seqItems c.obj with
  | some items => buildListEntries p c.dotpath items 0 ctr
  | none => Except.ok ([], ctr)

/-- `CachedObject.filter` (`cached_object.py` lines 147-226).  With no
active filters each filtered attribute view is the unfiltered mapping
itself; otherwise the keep-if-any-predicate-matches loops run.  The
container views are rebuilt from the live object on every call,
constructing fresh child nodes. -/
def CachedObject.filter (p : Provider) (c : CachedObject) (ctr : Nat) :
    Except String (CachedObject × Nat) := do
  let fpub := if c.filters.isEmpty then c.public_attributes
              else filterLoopA c.filters c.public_attributes
  let fpriv := if c.filters.isEmpty then c.private_attributes
               else filterLoopA c.filters c.private_attributes
  let (dbuilt, ctr1) ← c.dictPart p ctr
  let fdict := if c.filters.isEmpty then dbuilt else dictDeletePass c.filters dbuilt
  let (lbuilt, ctr2) ← c.listPart p ctr1
  let flist := if c.filters.isEmpty then lbuilt else listAppendPass c.filters lbuilt
  Except.ok
    ({ c with
        filtered_public_attributes := fpub
        filtered_private_attributes := fpriv
        filtered_dict := fdict
        filtered_list := flist }, ctr2)

/-- `CachedObject.cache` (`cached_object.py` lines 124-141): materialize the
public and private attribute maps if they are still empty, then run
`filter`. -/
def CachedObject.cache (p : Provider) (c : CachedObject) (ctr : Nat) :
    Except String (CachedObject × Nat) := do
  let (pub, ctr1) ←
    if c.public_attributes.isEmpty then
      buildAttrs p c.obj c.dotpath c.plain_public_attributes ctr
    else
      Except.ok (c.public_attributes, ctr)
  let (priv, ctr2) ←
    if c.private_attributes.isEmpty then
      buildAttrs p c.obj c.dotpath c.plain_private_attributes ctr1
    else
      Except.ok (c.private_attributes, ctr1)
  CachedObject.filter p
    { c with public_attributes := pub, private_attributes := priv } ctr2

/-- `CachedObject.set_filters` (`cached_object.py` lines 143-145). -/
def CachedObject.set_filters (p : Provider) (c : CachedObject) (fs : List Pred)
    (ctr : Nat) : Except String (CachedObject × Nat) :=
  CachedObject.filter p { c with filters := fs } ctr

/-! ## The explorer state machine (`objexplore.py`, `overview_layout.py`) -/

/-- `ExplorerState` — the active attribute-class view of an explorer
layout.  Modelled from the spec: `explorer_layout.py` is not in the
sources; §4.4 gives the collection selector, and `process_key_event`
(lines 221-226) toggles it between the public and private views. -/
inductive CollSel where
  | publicAttrs
  | privateAttrs
deriving DecidableEq

/-- The mutable state of one `ExplorerLayout` instance.  Modelled from the
spec: `explorer_layout.py` is not in the sources; per §4.4 a layout keeps a
clamped cursor index into the active collection, and a fresh layout starts
at the first entry of the public view. -/
structure ExplorerLayoutSt where
  state : CollSel
  cursor : Nat
deriving DecidableEq

/-- `OverviewState` (`overview_layout.py` lines 14-15). -/
inductive OvState where
  | all
  | docstring
  | value
deriving DecidableEq

/-- `PreviewState` (`overview_layout.py` lines 18-19). -/
inductive PrevState where
  | repr
  | source
deriving DecidableEq

/-- The mutable state of one `OverviewLayout` instance
(`overview_layout.py` lines 22-26). -/
structure OverviewLayoutSt where
  state : OvState
  preview_state : PrevState
deriving DecidableEq

/-- `StackFrame` — a node paired with references to the layout objects
that hold its UI state.  Modelled from the spec: `stack_layout.py` is not
in the sources; §3 has a frame pair a Node with its UI state, and
`process_key_event` (lines 176-189) stores and reads the layout objects
through the frame.  Layout objects are mutable Python instances, so the
frame stores heap references, not copies. -/
structure StackFrame where
  cached_obj : CachedObject
  explorer_layout : Nat
  overview_layout : Nat

/-- The explorer state (`Explorer.__init__`, `objexplore.py` lines 34-54),
with a heap for the mutable layout instances.  `elHeap`/`olHeap` map a
reference to the instance state; `nextEL` is the next fresh
`ExplorerLayout` reference; `ctr` is the `CachedObject` allocation
counter.  `stack_visible`/`stack_index` are the history view's visibility
flag and cursor (`StackLayout.visible` / `.index`, modelled from the spec
since `stack_layout.py` is not in the sources). -/
structure Explorer where
  cached_obj : CachedObject
  stack : List StackFrame
  stack_visible : Bool
  stack_index : Nat
  explorer_layout : Nat
  overview_layout : Nat
  elHeap : Nat → ExplorerLayoutSt
  olHeap : Nat → OverviewLayoutSt
  nextEL : Nat
  ctr : Nat

/-- The collection the current explorer layout displays.  Modelled from the
spec (§4.4): the active filtered collection of the current node. -/
def Explorer.activeCollection (st : Explorer) : List (String × NodeData) :=
  match (st.elHeap st.explorer_layout).state with
  | .publicAttrs => st.cached_obj.filtered_public_attributes
  | .privateAttrs => st.cached_obj.filtered_private_attributes

/-- `ExplorerLayout.selected_object`.  Modelled from the spec (§4.4
`selected()`): the node at the cursor position of the active filtered
collection, undefined (here `none`) when that collection is empty or the
cursor is out of range. -/
def Explorer.selected_object (st : Explorer) : Option NodeData :=
  (st.activeCollection.map (fun e => e.2)).get? (st.elHeap st.explorer_layout).cursor

/-- `ExplorerLayout.move_up`.  Modelled from the spec (§4.4): decrement the
cursor, clamped at 0. -/
def Explorer.elMoveUp (st : Explorer) : Explorer :=
  let el := st.elHeap st.explorer_layout
  { st with
      elHeap := fun i =>
        if i = st.explorer_layout then { el with cursor := el.cursor - 1 } else st.elHeap i }

/-- `ExplorerLayout.move_down`.  Modelled from the spec (§4.4): increment
the cursor, clamped to the last index of the active collection (the
viewport-size argument only drives scrolling and is not part of the cursor
semantics). -/
def Explorer.elMoveDown (st : Explorer) : Explorer :=
  let el := st.elHeap st.explorer_layout
  let n := st.activeCollection.length
  { st with
      elHeap := fun i =>
        if i = st.explorer_layout then { el with cursor := min (el.cursor + 1) (n - 1) }
        else st.elHeap i }

/-- `StackLayout.move_up`.  Modelled from the spec: the history cursor
decrements, clamped at 0. -/
def Explorer.stackMoveUp (st : Explorer) : Explorer :=
  { st with stack_index := st.stack_index - 1 }

/-- `StackLayout.move_down`.  Modelled from the spec: the history cursor
increments, clamped to the last frame. -/
def Explorer.stackMoveDown (st : Explorer) : Explorer :=
  { st with stack_index := min (st.stack_index + 1) (st.stack.length - 1) }

/-- The `[` / `]` branch of `process_key_event` (`objexplore.py` lines
221-226): toggle the current explorer layout between the public and
private views.  The cursor reset to the top of the new collection is
modelled from the spec (§4.4 `toggle_collection`). -/
def Explorer.toggleCollection (st : Explorer) : Explorer :=
  let el := st.elHeap st.explorer_layout
  let s' := match el.state with
    | .publicAttrs => CollSel.privateAttrs
    | .privateAttrs => CollSel.publicAttrs
  { st with
      elHeap := fun i =>
        if i = st.explorer_layout then { state := s', cursor := 0 } else st.elHeap i }

/-- The `{` / `}` branch of `process_key_event` (`objexplore.py` lines
228-235): a no-op unless the selected object is callable, else flip the
current overview layout's preview state between repr and source. -/
def Explorer.togglePreview (st : Explorer) : Explorer :=
  match st.selected_object with
  | none => st
  | some nd =>
    if !nd.is_callable then st
    else
      let ol := st.olHeap st.overview_layout
      let ps' := match ol.preview_state with
        | .repr => PrevState.source
        | .source => PrevState.repr
      { st with
          olHeap := fun i =>
            if i = st.overview_layout then { ol with preview_state := ps' } else st.olHeap i }

/-- The drill-in path of the `enter` branch (`objexplore.py` lines
168-182, history view closed): take the selected object; if it is not
selectable, return unchanged (line 170); otherwise create a fresh
`ExplorerLayout`, make the child current, cache it, and append a new frame
holding the new node, the fresh explorer layout and the *current* overview
layout instance. -/
def Explorer.pushSelected (p : Provider) (st : Explorer) : Except String Explorer :=
  match st.selected_object with
  | none => Except.ok st
  | some nd =>
    if !p.selectable nd.obj then Except.ok st
    else do
      let elId := st.nextEL
      let (cobj, ctr') ← CachedObject.cache p nd.toCached st.ctr
      Except.ok
        { st with
            explorer_layout := elId
            elHeap := fun i =>
              if i = elId then { state := CollSel.publicAttrs, cursor := 0 } else st.elHeap i
            nextEL := elId + 1
            cached_obj := cobj
            ctr := ctr'
            stack := st.stack ++
              [{ cached_obj := cobj, explorer_layout := elId, overview_layout := st.overview_layout }] }

/-- The history-jump path of the `enter` branch (`objexplore.py` lines
163-182, history view open): selecting the frame of the current object is
a no-op (line 165, Python `==` on `CachedObject` is identity); otherwise
`StackLayout.select()` runs and lines 173-182 then rebuild the explorer
layout, re-cache the chosen node and append a frame for it.
`StackLayout.select` is modelled from the spec (§4.3 `jump(index)`,
`stack_layout.py` is not in the sources): it truncates the stack to the
frames strictly below the chosen one (the append of line 176 restores the
chosen depth), closes the history view and returns the chosen frame's
node. -/
def Explorer.jumpSelect (p : Provider) (st : Explorer) : Except String Explorer :=
  match st.stack.get? st.stack_index with
  | none => Except.error "IndexError"
  | some fr =>
    if fr.cached_obj.id = st.cached_obj.id then Except.ok st
    else do
      let elId := st.nextEL
      let (cobj, ctr') ← CachedObject.cache p fr.cached_obj st.ctr
      Except.ok
        { st with
            stack_visible := false
            explorer_layout := elId
            elHeap := fun i =>
              if i = elId then { state := CollSel.publicAttrs, cursor := 0 } else st.elHeap i
            nextEL := elId + 1
            cached_obj := cobj
            ctr := ctr'
            stack := st.stack.take st.stack_index ++
              [{ cached_obj := cobj, explorer_layout := elId, overview_layout := st.overview_layout }] }

/-- The back branch (`objexplore.py` lines 185-189): `self.stack.pop()`
followed by re-reading node and layouts from the new tail frame.
`StackLayout.pop` is modelled from the spec (§4.3, `stack_layout.py` is
not in the sources): it removes the tail frame only when more than one
frame remains, so popping the single root frame leaves the stack
unchanged. -/
def Explorer.popFrame (st : Explorer) : Explorer :=
  if st.stack.isEmpty then st
  else
    let stack' := if 1 < st.stack.length then st.stack.dropLast else st.stack
    match stack'.getLast? with
    | none => st
    | some fr =>
      { st with
          stack := stack'
          cached_obj := fr.cached_obj
          explorer_layout := fr.explorer_layout
          overview_layout := fr.overview_layout }

/-- The `o` branch (`objexplore.py` lines 199-206, filter view aside):
toggle the history view.  Opening it points the history cursor at the
current frame (`StackLayout.set_visible`, modelled from the spec). -/
def Explorer.toggleStackView (st : Explorer) : Explorer :=
  if st.stack_visible then { st with stack_visible := false }
  else { st with stack_visible := true, stack_index := st.stack.length - 1 }

/-- The navigation-relevant key events of `process_key_event`. -/
inductive Op where
  | moveUp
  | moveDown
  | enter
  | back
  | toggleColl
  | togglePrev
  | stackView
deriving DecidableEq

/-- Dispatch of `process_key_event` over the navigation branches
(`objexplore.py` lines 142-235; the filter and help views are out of the
embedding's scope). -/
def Explorer.step (p : Provider) (st : Explorer) : Op → Except String Explorer
  | .moveUp => Except.ok (if st.stack_visible then st.stackMoveUp else st.elMoveUp)
  | .moveDown => Except.ok (if st.stack_visible then st.stackMoveDown else st.elMoveDown)
  | .enter => if st.stack_visible then st.jumpSelect p else st.pushSelected p
  | .back => Except.ok st.popFrame
  | .toggleColl => Except.ok st.toggleCollection
  | .togglePrev => Except.ok st.togglePreview
  | .stackView => Except.ok st.toggleStackView

/-- Run a sequence of key events. -/
def Explorer.run (p : Provider) (st : Explorer) : List Op → Except String Explorer
  | [] => Except.ok st
  | op :: ops => do
    let st' ← st.step p op
    st'.run p ops

/-- `Explorer.__init__` (`objexplore.py` lines 34-54): build and cache the
root node, create the single explorer/overview layout instances and the
one-frame stack. -/
def Explorer.make (p : Provider) (obj : Obj) (name_of_obj : String) :
    Except String Explorer := do
  let (nd, ctr1) ← CachedObject.init p 0 obj none (some name_of_obj) none
  let (cobj, ctr2) ← CachedObject.cache p nd.toCached ctr1
  Except.ok
    { cached_obj := cobj
      stack := [{ cached_obj := cobj, explorer_layout := 0, overview_layout := 0 }]
      stack_visible := false
      stack_index := 0
      explorer_layout := 0
      overview_layout := 0
      elHeap := fun _ => { state := CollSel.publicAttrs, cursor := 0 }
      olHeap := fun _ => { state := OvState.all, preview_state := PrevState.repr }
      nextEL := 1
      ctr := ctr2 }

/-! ## Basic lemmas about the filter loops -/

theorem exbind_ok {α β : Type} (a : α) (f : α → Except String β) :
    (Except.ok a >>= f) = f a := rfl

theorem exbind_error {α β : Type} (e : String) (f : α → Except String β) :
    ((Except.error e : Except String α) >>= f) = Except.error e := rfl

theorem exbind_eq_ok {α β : Type} {e : Except String α} {f : α → Except String β}
    {b : β} (h : (e >>= f) = Except.ok b) : ∃ a, e = Except.ok a ∧ f a = Except.ok b := by
  cases e with
  | ok a => exact ⟨a, rfl, h⟩
  | error s => simp [exbind_error] at h

/-- The break-on-first-match loop is disjunction over the filter list. -/
theorem keepAny_eq_any (fs : List Pred) (o : Obj) :
    keepAny fs o = fs.any (fun f => f o) := by
  induction fs with
  | nil => rfl
  | cons f rest ih =>
    simp only [keepAny, List.any_cons, ih]
    by_cases h : f o <;> simp [h]

/-- The attribute-filtering loop keeps exactly the matching entries, in
order. -/
theorem filterLoopA_eq_filter (fs : List Pred) (l : List (String × NodeData)) :
    filterLoopA fs l = l.filter (fun e => keepAny fs e.2.obj) := by
  induction l with
  | nil => rfl
  | cons e rest ih =>
    by_cases h : keepAny fs e.2.obj <;> simp [filterLoopA, List.filter_cons, h, ih]

theorem foldlAppend_eq (fs : List Pred) (l acc : List (String × NodeData)) :
    l.foldl (fun acc e => if keepAny fs e.2.obj then acc ++ [e] else acc) acc
      = acc ++ l.filter (fun e => keepAny fs e.2.obj) := by
  induction l generalizing acc with
  | nil => simp
  | cons e rest ih =>
    by_cases h : keepAny fs e.2.obj <;> simp [List.foldl_cons, List.filter_cons, h, ih]

/-- The list-filtering pass keeps exactly the matching entries, in order. -/
theorem listAppendPass_eq_filter (fs : List Pred) (built : List (String × NodeData)) :
    listAppendPass fs built = built.filter (fun e => keepAny fs e.2.obj) := by
  simpa using foldlAppend_eq fs built []

/-- Keys of the entries the dict-filtering pass deletes. -/
def badKeys (fs : List Pred) (todo : List DictEntry) : List Obj :=
  (todo.filter (fun e => !keepAny fs e.2.2.obj)).map (fun e => e.1)

theorem dictDeleteLoop_eq (fs : List Pred) :
    ∀ (todo acc : List DictEntry),
      dictDeleteLoop fs acc todo
        = acc.filter (fun x => decide (x.1 ∉ badKeys fs todo)) := by
  intro todo
  induction todo with
  | nil => intro acc; simp [dictDeleteLoop, badKeys]
  | cons e todo ih =>
    intro acc
    by_cases h : keepAny fs e.2.2.obj
    · simp only [dictDeleteLoop, h, if_true, ih]
      have : badKeys fs (e :: todo) = badKeys fs todo := by
        simp [badKeys, List.filter_cons, h]
      rw [this]
    · simp only [dictDeleteLoop, h, if_false, ih, List.filter_filter]
      have hbk : badKeys fs (e :: todo) = e.1 :: badKeys fs todo := by
        simp [badKeys, List.filter_cons, h]
      rw [hbk]
      apply List.filter_congr
      intro x _
      by_cases hx : x.1 = e.1 <;> simp [hx]

/-- With pairwise-distinct keys (as in a Python dict) the copy-and-delete
pass keeps exactly the matching entries, in order. -/
theorem dictDeletePass_eq_filter (fs : List Pred) (built : List DictEntry)
    (hnd : (built.map (fun e => e.1)).Nodup) :
    dictDeletePass fs built = built.filter (fun e => keepAny fs e.2.2.obj) := by
  rw [dictDeletePass, dictDeleteLoop_eq]
  apply List.filter_congr
  intro x hx
  by_cases hk : keepAny fs x.2.2.obj
  · simp only [hk, decide_eq_true_eq]
    have : x.1 ∉ badKeys fs built := by
      intro hmem
      simp only [badKeys, List.mem_map, List.mem_filter] at hmem
      obtain ⟨y, ⟨hy, hky⟩, hkey⟩ := hmem
      have := List.inj_on_of_nodup_map hnd hy hx hkey
      subst this
      simp [hk] at hky
    simp [this]
  · simp only [hk, decide_eq_false_iff_not]
    have : x.1 ∈ badKeys fs built := by
      simp only [badKeys, List.mem_map, List.mem_filter]
      exact ⟨x, ⟨hx, by simp [hk]⟩, rfl⟩
    simp [this]

/-! ## Identity-erasing projections and allocation-shift lemmas -/

/-- Forget the allocation identity of attribute entries. -/
def stripA (l : List (String × NodeData)) : List (String × NodeCore) :=
  l.map (fun e => (e.1, e.2.toNodeCore))

/-- Forget the allocation identity of dict entries. -/
def stripD (l : List DictEntry) : List (Obj × String × NodeCore) :=
  l.map (fun e => (e.1, e.2.1, e.2.2.toNodeCore))

theorem init_ok_elim {p : Provider} {ctr : Nat} {obj : Obj} {pp : Option String}
    {an : Option String} {idx : Option Idx} {nd : NodeData} {n : Nat}
    (h : CachedObject.init p ctr obj pp an idx = Except.ok (nd, n)) :
    CachedObject.initCore p obj pp an idx = Except.ok nd.toNodeCore
      ∧ nd.id = ctr ∧ n = ctr + 1 := by
  rw [CachedObject.init] at h
  cases hc : CachedObject.initCore p obj pp an idx with
  | error e => rw [hc] at h; simp [Except.map] at h
  | ok core =>
    rw [hc] at h
    simp only [Except.map, Except.ok.injEq, Prod.mk.injEq] at h
    obtain ⟨hnd, hn⟩ := h
    subst hnd
    exact ⟨rfl, rfl, hn.symm⟩

theorem init_ok_intro {p : Provider} {obj : Obj} {pp : Option String}
    {an : Option String} {idx : Option Idx} {core : NodeCore}
    (hc : CachedObject.initCore p obj pp an idx = Except.ok core) (ctr : Nat) :
    CachedObject.init p ctr obj pp an idx
      = Except.ok ({ toNodeCore := core, id := ctr }, ctr + 1) := by
  rw [CachedObject.init, hc]; rfl

/-- A successful dict materialization at one allocation counter succeeds at
any other, producing the same entries up to the fresh identities. -/
theorem buildDictEntries_shift (p : Provider) (dot : String) :
    ∀ (kvs : List (Obj × Obj)) (ctr : Nat) (l : List DictEntry) (n : Nat),
      buildDictEntries p dot kvs ctr = Except.ok (l, n) →
      ∀ ctr2 : Nat, ∃ l2, buildDictEntries p dot kvs ctr2 = Except.ok (l2, ctr2 + kvs.length)
        ∧ stripD l2 = stripD l ∧ n = ctr + kvs.length := by
  intro kvs
  induction kvs with
  | nil =>
    intro ctr l n h ctr2
    simp only [buildDictEntries, Except.ok.injEq, Prod.mk.injEq] at h
    obtain ⟨hl, hn⟩ := h
    exact ⟨[], by simp [buildDictEntries], by simp [hl.symm], by simp [hn.symm]⟩
  | cons kv rest ih =>
    intro ctr l n h ctr2
    obtain ⟨k, v⟩ := kv
    simp only [buildDictEntries] at h
    obtain ⟨x, hx, h⟩ := exbind_eq_ok h
    obtain ⟨nd, ctr1⟩ := x
    obtain ⟨y, hy, h⟩ := exbind_eq_ok h
    obtain ⟨tail, ctrt⟩ := y
    simp only [Except.ok.injEq, Prod.mk.injEq] at h
    obtain ⟨hl, hn⟩ := h
    obtain ⟨hcore, hid, hctr1⟩ := init_ok_elim hx
    subst hctr1
    obtain ⟨l2, hbuild2, hstrip2, hn2⟩ := ih _ _ _ hy (ctr2 + 1)
    refine ⟨(k, " " ++ (if p.isStr k then "\"" ++ p.strOf k ++ "\"" else p.strOf k) ++ ": "
        ++ p.typeStr v, { toNodeCore := nd.toNodeCore, id := ctr2 }) :: l2, ?_, ?_, ?_⟩
    · simp only [buildDictEntries, init_ok_intro hcore ctr2, exbind_ok, hbuild2]
      simp [List.length_cons]
      omega
    · rw [← hl]
      simp only [stripD, List.map_cons, List.cons.injEq]
      refine ⟨trivial, ?_⟩
      simpa [stripD] using hstrip2
    · have hn2' : ctrt = ctr + 1 + rest.length := hn2
      simp only [List.length_cons]
      omega

/-- A successful sequence materialization at one allocation counter
succeeds at any other, producing the same entries up to the fresh
identities. -/
theorem buildListEntries_shift (p : Provider) (dot : String) :
    ∀ (items : List Obj) (i : Nat) (ctr : Nat) (l : List (String × NodeData)) (n : Nat),
      buildListEntries p dot items i ctr = Except.ok (l, n) →
      ∀ ctr2 : Nat, ∃ l2, buildListEntries p dot items i ctr2 = Except.ok (l2, ctr2 + items.length)
        ∧ stripA l2 = stripA l ∧ n = ctr + items.length := by
  intro items
  induction items with
  | nil =>
    intro i ctr l n h ctr2
    simp only [buildListEntries, Except.ok.injEq, Prod.mk.injEq] at h
    obtain ⟨hl, hn⟩ := h
    exact ⟨[], by simp [buildListEntries], by simp [hl.symm], by simp [hn.symm]⟩
  | cons item rest ih =>
    intro i ctr l n h ctr2
    simp only [buildListEntries] at h
    obtain ⟨x, hx, h⟩ := exbind_eq_ok h
    obtain ⟨nd, ctr1⟩ := x
    obtain ⟨y, hy, h⟩ := exbind_eq_ok h
    obtain ⟨tail, ctrt⟩ := y
    simp only [Except.ok.injEq, Prod.mk.injEq] at h
    obtain ⟨hl, hn⟩ := h
    obtain ⟨hcore, hid, hctr1⟩ := init_ok_elim hx
    subst hctr1
    obtain ⟨l2, hbuild2, hstrip2, hn2⟩ := ih _ _ _ _ hy (ctr2 + 1)
    refine ⟨(" [" ++ toString i ++ "] " ++ p.typeStr item,
        { toNodeCore := nd.toNodeCore, id := ctr2 }) :: l2, ?_, ?_, ?_⟩
    · simp only [buildListEntries, init_ok_intro hcore ctr2, exbind_ok, hbuild2]
      simp [List.length_cons]
      omega
    · rw [← hl]
      simp only [stripA, List.map_cons, List.cons.injEq]
      refine ⟨trivial, ?_⟩
      simpa [stripA] using hstrip2
    · have hn2' : ctrt = ctr + 1 + rest.length := hn2
      simp only [List.length_cons]
      omega

theorem buildAttrs_ok_length (p : Provider) (b : Obj) (d : String) :
    ∀ (names : List String) (ctr : Nat) (l : List (String × NodeData)) (n : Nat),
      buildAttrs p b d names ctr = Except.ok (l, n) → l.length = names.length := by
  intro names
  induction names with
  | nil =>
    intro ctr l n h
    simp only [buildAttrs, Except.ok.injEq, Prod.mk.injEq] at h
    simp [← h.1]
  | cons a rest ih =>
    intro ctr l n h
    simp only [buildAttrs] at h
    cases hg : p.getattr b a with
    | none => rw [hg] at h; simp at h
    | some child =>
      rw [hg] at h
      obtain ⟨x, hx, h⟩ := exbind_eq_ok h
      obtain ⟨nd, ctr1⟩ := x
      obtain ⟨y, hy, h⟩ := exbind_eq_ok h
      obtain ⟨tail, ctrt⟩ := y
      simp only [Except.ok.injEq, Prod.mk.injEq] at h
      rw [← h.1]
      simp [ih _ _ _ hy]

/-! ## Inversion lemmas for `filter` and `cache` -/

/-- Shape of a successful `filter` run: the sub-computations it chains and
the fields of the node it returns. -/
theorem filter_ok_dest {p : Provider} {c : CachedObject} {ctr : Nat}
    {c' : CachedObject} {n : Nat}
    (h : CachedObject.filter p c ctr = Except.ok (c', n)) :
    ∃ db n1 lb,
      CachedObject.dictPart p c ctr = Except.ok (db, n1) ∧
      CachedObject.listPart p c n1 = Except.ok (lb, n) ∧
      c'.toNodeCore = c.toNodeCore ∧ c'.id = c.id ∧ c'.filters = c.filters ∧
      c'.public_attributes = c.public_attributes ∧
      c'.private_attributes = c.private_attributes ∧
      c'.filtered_public_attributes
        = (if c.filters.isEmpty then c.public_attributes
           else filterLoopA c.filters c.public_attributes) ∧
      c'.filtered_private_attributes
        = (if c.filters.isEmpty then c.private_attributes
           else filterLoopA c.filters c.private_attributes) ∧
      c'.filtered_dict = (if c.filters.isEmpty then db else dictDeletePass c.filters db) ∧
      c'.filtered_list = (if c.filters.isEmpty then lb else listAppendPass c.filters lb) := by
  unfold CachedObject.filter at h
  obtain ⟨x, hx, h⟩ := exbind_eq_ok h
  obtain ⟨db, n1⟩ := x
  obtain ⟨y, hy, h⟩ := exbind_eq_ok h
  obtain ⟨lb, n2⟩ := y
  simp only [Except.ok.injEq, Prod.mk.injEq] at h
  obtain ⟨hc, hn⟩ := h
  subst hn
  obtain rfl := hc.symm
  exact ⟨db, n1, lb, hx, hy, rfl, rfl, rfl, rfl, rfl, rfl, rfl, rfl, rfl⟩

/-- Shape of a successful `cache` run: the attribute maps it settles on and
the final `filter` call. -/
theorem cache_ok_dest {p : Provider} {c : CachedObject} {ctr : Nat}
    {c' : CachedObject} {n : Nat}
    (h : CachedObject.cache p c ctr = Except.ok (c', n)) :
    ∃ pub ctr1 priv ctr2,
      ((c.public_attributes.isEmpty = true ∧
          buildAttrs p c.obj c.dotpath c.plain_public_attributes ctr = Except.ok (pub, ctr1)) ∨
       (c.public_attributes.isEmpty = false ∧ pub = c.public_attributes ∧ ctr1 = ctr)) ∧
      ((c.private_attributes.isEmpty = true ∧
          buildAttrs p c.obj c.dotpath c.plain_private_attributes ctr1 = Except.ok (priv, ctr2)) ∨
       (c.private_attributes.isEmpty = false ∧ priv = c.private_attributes ∧ ctr2 = ctr1)) ∧
      CachedObject.filter p
        { c with public_attributes := pub, private_attributes := priv } ctr2
        = Except.ok (c', n) := by
  unfold CachedObject.cache at h
  by_cases h1 : c.public_attributes.isEmpty
  · rw [if_pos h1] at h
    obtain ⟨x, hx, h⟩ := exbind_eq_ok h
    obtain ⟨pub, ctr1⟩ := x
    dsimp only at h
    by_cases h2 : c.private_attributes.isEmpty
    · rw [if_pos h2] at h
      obtain ⟨y, hy, h⟩ := exbind_eq_ok h
      obtain ⟨priv, ctr2⟩ := y
      dsimp only at h
      exact ⟨pub, ctr1, priv, ctr2, Or.inl ⟨h1, hx⟩, Or.inl ⟨h2, hy⟩, h⟩
    · rw [if_neg h2, exbind_ok] at h
      dsimp only at h
      exact ⟨pub, ctr1, c.private_attributes, ctr1,
        Or.inl ⟨h1, hx⟩, Or.inr ⟨by simpa using h2, rfl, rfl⟩, h⟩
  · rw [if_neg h1, exbind_ok] at h
    dsimp only at h
    by_cases h2 : c.private_attributes.isEmpty
    · rw [if_pos h2] at h
      obtain ⟨y, hy, h⟩ := exbind_eq_ok h
      obtain ⟨priv, ctr2⟩ := y
      dsimp only at h
      exact ⟨c.public_attributes, ctr, priv, ctr2,
        Or.inr ⟨by simpa using h1, rfl, rfl⟩, Or.inl ⟨h2, hy⟩, h⟩
    · rw [if_neg h2, exbind_ok] at h
      dsimp only at h
      exact ⟨c.public_attributes, ctr, c.private_attributes, ctr,
        Or.inr ⟨by simpa using h1, rfl, rfl⟩,
        Or.inr ⟨by simpa using h2, rfl, rfl⟩, h⟩

/-- `filter` leaves everything but the four filtered views unchanged. -/
theorem filter_preserves {p : Provider} {c : CachedObject} {ctr : Nat}
    {c' : CachedObject} {n : Nat}
    (h : CachedObject.filter p c ctr = Except.ok (c', n)) :
    c'.toNodeCore = c.toNodeCore ∧ c'.id = c.id ∧ c'.filters = c.filters ∧
      c'.public_attributes = c.public_attributes ∧
      c'.private_attributes = c.private_attributes := by
  obtain ⟨db, n1, lb, -, -, h1, h2, h3, h4, h5, -⟩ := filter_ok_dest h
  exact ⟨h1, h2, h3, h4, h5⟩

/-- `cache` leaves the scalar fields, the identity and the filter list
unchanged. -/
theorem cache_preserves {p : Provider} {c : CachedObject} {ctr : Nat}
    {c' : CachedObject} {n : Nat}
    (h : CachedObject.cache p c ctr = Except.ok (c', n)) :
    c'.toNodeCore = c.toNodeCore ∧ c'.id = c.id ∧ c'.filters = c.filters := by
  obtain ⟨pub, ctr1, priv, ctr2, _, _, hf⟩ := cache_ok_dest h
  obtain ⟨h1, h2, h3, _, _⟩ := filter_preserves hf
  exact ⟨h1, h2, h3⟩

/-! ## Inversion of `__init__` -/

theorem initCore_ok_dest {p : Provider} {obj : Obj} {pp : Option String}
    {an : Option String} {idx : Option Idx} {core : NodeCore}
    (h : CachedObject.initCore p obj pp an idx = Except.ok core) :
    ∃ dp r len, dotpathOf p obj pp an idx = Except.ok dp ∧ reprOf p obj = Except.ok r ∧
      lengthOf p obj = Except.ok len ∧ core = mkNodeCore p obj an dp r len := by
  unfold CachedObject.initCore at h
  obtain ⟨dp, hdp, h⟩ := exbind_eq_ok h
  obtain ⟨r, hr, h⟩ := exbind_eq_ok h
  obtain ⟨len, hlen, h⟩ := exbind_eq_ok h
  simp only [Except.ok.injEq] at h
  exact ⟨dp, r, len, hdp, hr, hlen, h.symm⟩

theorem initCore_ok_intro {p : Provider} {obj : Obj} {pp : Option String}
    {an : Option String} {idx : Option Idx} {dp r : String} {len : Option String}
    (hdp : dotpathOf p obj pp an idx = Except.ok dp)
    (hr : reprOf p obj = Except.ok r)
    (hlen : lengthOf p obj = Except.ok len) :
    CachedObject.initCore p obj pp an idx = Except.ok (mkNodeCore p obj an dp r len) := by
  unfold CachedObject.initCore
  rw [hdp, exbind_ok, hr, exbind_ok, hlen, exbind_ok]

theorem initCore_error_of_dotpath {p : Provider} {obj : Obj} {pp : Option String}
    {an : Option String} {idx : Option Idx} {s : String}
    (hdp : dotpathOf p obj pp an idx = Except.error s) :
    CachedObject.initCore p obj pp an idx = Except.error s := by
  unfold CachedObject.initCore
  rw [hdp, exbind_error]

/-! ## Concrete providers for the executable scenarios -/

/-- A benign provider: no members, every call succeeds, `len` raises
`TypeError` (caught by `__init__`), everything selectable. -/
def baseProv : Provider :=
  { dir := fun _ => []
    getattr := fun _ _ => none
    callable := fun _ => false
    isNone := fun _ => false
    isStr := fun _ => false
    typeStr := fun _ => "type"
    strOf := fun o => toString o
    reprStr := fun o => some (toString o)
    getdoc := fun _ => none
    getsource := fun _ => none
    lenOf := fun _ => LenRes.typeError
    isbuiltin := fun _ => false
    isclass := fun _ => false
    isfunction := fun _ => false
    ismethod := fun _ => false
    ismodule := fun _ => false
    dictItems := fun _ => none
    seqItems := fun _ => none
    selectable := fun _ => true }

/-- Placeholder node used only as the default of `okNode`. -/
def nd0 : NodeData :=
  { obj := 0, is_callable := false, plain_attrs := [], dotpath := "", attr_name := ""
    typeof := "", docstring := "", repr := "", plain_public_attributes := []
    plain_private_attributes := [], source := "", length := none, isbuiltin := false
    isclass := false, isfunction := false, ismethod := false, ismodule := false, id := 0 }

/-- Extract the node of a successful construction (defaulting on error). -/
def okNode (r : Except String (NodeData × Nat)) : NodeData :=
  match r with
  | .ok x => x.1
  | .error _ => nd0

/-! ## Claims about node construction (C10, C8, C5) -/

/-- Claim C10: constructing a node for a non-`None` handle with neither an
attribute name nor an index raises `ValueError`; a `None` handle is
accepted without either, and its path label is the literal `"None"`
regardless of any parent path. -/
theorem c10_init_valueerror_none (p : Provider) (ctr : Nat) (obj : Obj)
    (pp : Option String) :
    (p.isNone obj = false →
      CachedObject.init p ctr obj pp none none
        = Except.error "ValueError: Need to specify an attribute name or an index") ∧
    (p.isNone obj = true → ∀ r len, reprOf p obj = Except.ok r →
      lengthOf p obj = Except.ok len →
      ∃ nd n, CachedObject.init p ctr obj pp none none = Except.ok (nd, n)
        ∧ nd.dotpath = "None") := by
  constructor
  · intro hnone
    have hdp : dotpathOf p obj pp none none
        = Except.error "ValueError: Need to specify an attribute name or an index" := by
      simp [dotpathOf, hnone, idxNotNone]
    rw [CachedObject.init, initCore_error_of_dotpath hdp]
    rfl
  · intro hnone r len hr hlen
    have hdp : dotpathOf p obj pp none none = Except.ok "None" := by
      simp [dotpathOf, hnone]
    refine ⟨{ toNodeCore := mkNodeCore p obj none "None" r len, id := ctr }, ctr + 1,
      init_ok_intro (initCore_ok_intro hdp hr hlen) ctr, ?_⟩
    simp [mkNodeCore]

/-- Witness for C10, at a `None`-wrapping handle and a plain handle of the
benign provider. -/
theorem c10_init_valueerror_none_witness :
    (CachedObject.init baseProv 0 7 (some "root") none none
      = Except.error "ValueError: Need to specify an attribute name or an index") ∧
    (∃ nd n,
      CachedObject.init { baseProv with isNone := fun o => o = 0 } 0 0 (some "root") none none
        = Except.ok (nd, n) ∧ nd.dotpath = "None") :=
  ⟨(c10_init_valueerror_none baseProv 0 7 (some "root")).1 rfl,
   (c10_init_valueerror_none { baseProv with isNone := fun o => o = 0 } 0 0 (some "root")).2
     rfl "0" none rfl rfl⟩

/-- Counterexample to claim C8 as stated: a node whose handle is the
`None` object gets the literal path label `"None"`, not the concatenation
of its parent's path label with `.x`. -/
theorem c8_none_path_label :
    ((CachedObject.init { baseProv with isNone := fun o => o = 0 } 0 0
        (some "root") (some "x") none).toOption.map (fun x => x.1.dotpath))
      = some "None"
    ∧ "None" ≠ "root" ++ "." ++ "x" := by
  exact ⟨rfl, by decide⟩

/-- Claim C8 (amended): for a node whose handle is not `None`, the path
label concatenates the parent's path label (when present and non-empty)
with `.name` for attribute access or `[rendered index]` for key/index
access, and without a parent path it is just the name or `[rendered
index]`; a node whose handle is `None` gets the literal label `"None"`
regardless of any parent path. -/
theorem c8_path_label_concat {p : Provider} {ctr : Nat} {obj : Obj}
    {pp : Option String} {an : Option String} {idx : Option Idx}
    {nd : NodeData} {n : Nat}
    (h : CachedObject.init p ctr obj pp an idx = Except.ok (nd, n)) :
    (p.isNone obj = true → nd.dotpath = "None") ∧
    (∀ a, p.isNone obj = false → an = some a →
      nd.dotpath = if parentFalsy pp then a else (pp.getD "") ++ "." ++ a) ∧
    (p.isNone obj = false → an = none →
      nd.dotpath = if parentFalsy pp then "[" ++ renderIndex p idx ++ "]"
                   else (pp.getD "") ++ "[" ++ renderIndex p idx ++ "]") := by
  obtain ⟨hcore, -, -⟩ := init_ok_elim h
  obtain ⟨dp, r, len, hdp, hr, hlen, hmk⟩ := initCore_ok_dest hcore
  have hdot : nd.dotpath = dp := by
    have hh : nd.toNodeCore.dotpath = (mkNodeCore p obj an dp r len).dotpath := by rw [hmk]
    simpa [mkNodeCore] using hh
  refine ⟨?_, ?_, ?_⟩
  · intro hnone
    rw [hdot]
    simp [dotpathOf, hnone, Except.ok.injEq] at hdp
    exact hdp.symm
  · intro a hnone han
    subst han
    rw [hdot]
    simp [dotpathOf, hnone, Except.ok.injEq] at hdp
    exact hdp.symm
  · intro hnone han
    subst han
    rw [hdot]
    simp only [dotpathOf, hnone, Bool.false_eq_true, if_false] at hdp
    cases hidx : idxNotNone p idx with
    | false => rw [hidx] at hdp; simp at hdp
    | true =>
      rw [hidx] at hdp
      simp at hdp
      exact hdp.symm

/-- Witness for the amended C8: attribute access under a parent path. -/
theorem c8_path_label_concat_witness :
    (okNode (CachedObject.init baseProv 0 5 (some "root") (some "x") none)).dotpath
      = if parentFalsy (some "root") then "x"
        else ((some "root" : Option String).getD "") ++ "." ++ "x" :=
  (@c8_path_label_concat baseProv 0 5 (some "root") (some "x") none
    (okNode (CachedObject.init baseProv 0 5 (some "root") (some "x") none))
    1 rfl).2.1 "x" rfl rfl

/-- Counterexample to claim C5 as stated: a raising `repr` is not caught
per-field — it propagates out of node creation. -/
theorem c5_repr_failure_propagates :
    CachedObject.init { baseProv with reprStr := fun _ => none } 0 3 none (some "x") none
      = Except.error "repr raised" := rfl

/-- Claim C5 (amended): during node construction only the source and
length derivations are guarded — a failing `getsource` degrades to the
empty string, a `TypeError` from `len` degrades to the absent length, and
a missing docstring degrades to the literal `"None"` — while a raising
`repr` propagates out of node creation, as does a `len` failure other
than `TypeError`. -/
theorem c5_source_length_degraded (p : Provider) (ctr : Nat) (obj : Obj)
    (pp : Option String) (a : String) :
    (∀ r, p.reprStr obj = some r → p.lenOf obj ≠ LenRes.raised →
      ∃ nd n, CachedObject.init p ctr obj pp (some a) none = Except.ok (nd, n) ∧
        nd.source = (p.getsource obj).getD "" ∧
        nd.length = (match p.lenOf obj with
                     | .ok k => some (toString k)
                     | .typeError => none
                     | .raised => none) ∧
        nd.docstring = (match p.getdoc obj with
                        | some d => if d = "" then "None" else d
                        | none => "None")) ∧
    (p.reprStr obj = none →
      CachedObject.init p ctr obj pp (some a) none = Except.error "repr raised") ∧
    (p.lenOf obj = LenRes.raised → p.reprStr obj ≠ none →
      CachedObject.init p ctr obj pp (some a) none = Except.error "len raised") := by
  have hdp : ∃ dp, dotpathOf p obj pp (some a) none = Except.ok dp := by
    by_cases hnone : p.isNone obj = true
    · exact ⟨"None", by simp [dotpathOf, hnone]⟩
    · refine ⟨if parentFalsy pp then a else (pp.getD "") ++ "." ++ a, ?_⟩
      simp only [dotpathOf, hnone]
      simp
  obtain ⟨dp, hdp⟩ := hdp
  refine ⟨?_, ?_, ?_⟩
  · intro r hr hlen
    have hrr : reprOf p obj = Except.ok r := by simp [reprOf, hr]
    have hl : ∃ len, lengthOf p obj = Except.ok len ∧
        len = (match p.lenOf obj with
               | .ok k => some (toString k)
               | .typeError => none
               | .raised => none) := by
      cases hlo : p.lenOf obj with
      | ok k => exact ⟨some (toString k), by simp [lengthOf, hlo], by simp⟩
      | typeError => exact ⟨none, by simp [lengthOf, hlo], by simp⟩
      | raised => exact absurd hlo hlen
    obtain ⟨len, hl, hlval⟩ := hl
    refine ⟨{ toNodeCore := mkNodeCore p obj (some a) dp r len, id := ctr }, ctr + 1,
      init_ok_intro (initCore_ok_intro hdp hrr hl) ctr, ?_, ?_, ?_⟩
    · simp [mkNodeCore]
    · simp [mkNodeCore, hlval]
    · simp [mkNodeCore]
  · intro hr
    have hrr : reprOf p obj = Except.error "repr raised" := by simp [reprOf, hr]
    rw [CachedObject.init]
    unfold CachedObject.initCore
    rw [hdp, exbind_ok, hrr, exbind_error]
    rfl
  · intro hlen hr
    obtain ⟨r, hr⟩ := Option.ne_none_iff_exists'.mp hr
    have hrr : reprOf p obj = Except.ok r := by simp [reprOf, hr]
    have hl : lengthOf p obj = Except.error "len raised" := by simp [lengthOf, hlen]
    rw [CachedObject.init]
    unfold CachedObject.initCore
    rw [hdp, exbind_ok, hrr, exbind_ok, hl, exbind_error]
    rfl

/-- Witness for the amended C5: a provider whose `getsource` raises and
whose `len` raises `TypeError` still constructs the node, with the
degraded sentinels. -/
theorem c5_source_length_degraded_witness :
    ∃ nd n, CachedObject.init baseProv 0 4 none (some "y") none = Except.ok (nd, n) ∧
      nd.source = (baseProv.getsource 4).getD "" ∧
      nd.length = (match baseProv.lenOf 4 with
                   | .ok k => some (toString k)
                   | .typeError => none
                   | .raised => none) ∧
      nd.docstring = (match baseProv.getdoc 4 with
                      | some d => if d = "" then "None" else d
                      | none => "None") :=
  (c5_source_length_degraded baseProv 0 4 none "y").1 "4" rfl (by decide)

/-! ## Claim C2: cache aborts on a failing member lookup (code bug) -/

/-- Provider whose root object enumerates a member name that `getattr`
cannot fetch (as with `dir(type)` listing `__abstractmethods__`). -/
def pC2 : Provider := { baseProv with dir := fun o => if o = 0 then ["x"] else [] }

/-- The root node over `pC2`. -/
def ndC2 : NodeData := okNode (CachedObject.init pC2 0 0 none (some "root") none)

/-- The exception, if any, of a cache/filter run. -/
def errOf (r : Except String (CachedObject × Nat)) : Option String :=
  match r with
  | .ok _ => none
  | .error s => some s

/-- Claim C2 evaluated at the failing input: `cache` has no `try`/`except`
around the `getattr` of its member loop (`cached_object.py` lines 126-139;
the skip logic exists only in the commented-out block at the end of the
file), so a member enumerated by `dir` that `getattr` cannot fetch makes
the whole cache pass raise instead of being skipped. -/
theorem c2_cache_propagates_getattr_failure :
    errOf (CachedObject.cache pC2 ndC2.toCached 1) = some "AttributeError: x" := by
  decide

/-! ## Claim C3: filter OR-semantics, order preservation, empty filter list -/

/-- Distinctness of the keys a dict provider reports (Python dict keys are
unique). -/
def DictKeysNodup (p : Provider) (c : CachedObject) : Prop :=
  ∀ kvs, p.dictItems c.obj = some kvs → (kvs.map (fun kv => kv.1)).Nodup

theorem buildDictEntries_keys (p : Provider) (dot : String) :
    ∀ (kvs : List (Obj × Obj)) (ctr : Nat) (l : List DictEntry) (n : Nat),
      buildDictEntries p dot kvs ctr = Except.ok (l, n) →
      l.map (fun e => e.1) = kvs.map (fun kv => kv.1) := by
  intro kvs
  induction kvs with
  | nil =>
    intro ctr l n h
    simp only [buildDictEntries, Except.ok.injEq, Prod.mk.injEq] at h
    simp [← h.1]
  | cons kv rest ih =>
    intro ctr l n h
    obtain ⟨k, v⟩ := kv
    simp only [buildDictEntries] at h
    obtain ⟨x, hx, h⟩ := exbind_eq_ok h
    obtain ⟨nd, ctr1⟩ := x
    obtain ⟨y, hy, h⟩ := exbind_eq_ok h
    obtain ⟨tail, ctrt⟩ := y
    simp only [Except.ok.injEq, Prod.mk.injEq] at h
    rw [← h.1]
    simp [ih _ _ _ hy]

/-- Claim C3: after a `filter` run with active predicate list `P`, each
filtered view keeps exactly the children for which at least one predicate
of `P` holds — logical OR across predicates, not AND — in the order of the
unfiltered collection, and with `P` empty every child is kept, uniformly
for public attributes, private attributes, and both kinds of container
entries.  (The key-distinctness hypothesis reflects that a Python dict
cannot report duplicate keys.) -/
theorem c3_filter_or_semantics (p : Provider) (c : CachedObject) (ctr : Nat)
    (hnd : DictKeysNodup p c) :
    ∀ c2 n2, CachedObject.filter p c ctr = Except.ok (c2, n2) →
      c2.filtered_public_attributes =
        (if c.filters.isEmpty then c.public_attributes
         else c.public_attributes.filter (fun e => c.filters.any (fun f => f e.2.obj))) ∧
      c2.filtered_private_attributes =
        (if c.filters.isEmpty then c.private_attributes
         else c.private_attributes.filter (fun e => c.filters.any (fun f => f e.2.obj))) ∧
      (∀ built bctr, CachedObject.dictPart p c ctr = Except.ok (built, bctr) →
        c2.filtered_dict =
          (if c.filters.isEmpty then built
           else built.filter (fun e => c.filters.any (fun f => f e.2.2.obj)))) ∧
      (∀ built1 bctr1 built2 bctr2,
        CachedObject.dictPart p c ctr = Except.ok (built1, bctr1) →
        CachedObject.listPart p c bctr1 = Except.ok (built2, bctr2) →
        c2.filtered_list =
          (if c.filters.isEmpty then built2
           else built2.filter (fun e => c.filters.any (fun f => f e.2.obj)))) := by
  intro c2 n2 h
  obtain ⟨db, n1, lb, hdb, hlb, -, -, -, -, -, hfp, hfv, hfd, hfl⟩ := filter_ok_dest h
  have hdbnd : (db.map (fun e => e.1)).Nodup := by
    unfold CachedObject.dictPart at hdb
    cases hkv : p.dictItems c.obj with
    | none =>
      rw [hkv] at hdb
      simp only [Except.ok.injEq, Prod.mk.injEq] at hdb
      simp [← hdb.1]
    | some kvs =>
      rw [hkv] at hdb
      rw [buildDictEntries_keys p c.dotpath kvs ctr db n1 hdb]
      exact hnd kvs hkv
  refine ⟨?_, ?_, ?_, ?_⟩
  · rw [hfp]
    by_cases hf : c.filters.isEmpty <;>
      simp [hf, filterLoopA_eq_filter, keepAny_eq_any]
  · rw [hfv]
    by_cases hf : c.filters.isEmpty <;>
      simp [hf, filterLoopA_eq_filter, keepAny_eq_any]
  · intro built bctr hb
    have hcomb := hdb.symm.trans hb
    simp only [Except.ok.injEq, Prod.mk.injEq] at hcomb
    rw [hfd, hcomb.1]
    by_cases hf : c.filters.isEmpty <;>
      simp [hf, dictDeletePass_eq_filter c.filters built (hcomb.1 ▸ hdbnd), keepAny_eq_any]
  · intro built1 bctr1 built2 bctr2 hb1 hb2
    have hcomb1 := hdb.symm.trans hb1
    simp only [Except.ok.injEq, Prod.mk.injEq] at hcomb1
    obtain ⟨rfl, rfl⟩ := hcomb1
    have hcomb2 := hlb.symm.trans hb2
    simp only [Except.ok.injEq, Prod.mk.injEq] at hcomb2
    rw [hfl, hcomb2.1]
    by_cases hf : c.filters.isEmpty <;>
      simp [hf, listAppendPass_eq_filter, keepAny_eq_any]

/-! ## Claim C1: caching is idempotent for members, container entries are
rebuilt -/

theorem stripD_filter_key (K : List Obj) (b : List DictEntry) :
    stripD (b.filter (fun x => decide (x.1 ∉ K)))
      = (stripD b).filter (fun x => decide (x.1 ∉ K)) := by
  unfold stripD
  rw [List.filter_map]
  rfl

theorem badKeys_strip (fs : List Pred) {b b' : List DictEntry}
    (h : stripD b = stripD b') : badKeys fs b = badKeys fs b' := by
  have e : ∀ l : List DictEntry,
      badKeys fs l
        = ((stripD l).filter (fun x => !keepAny fs x.2.2.obj)).map (fun x => x.1) := by
    intro l
    unfold badKeys stripD
    rw [List.filter_map, List.map_map]
    rfl
  rw [e, e, h]

/-- The dict-filtering pass only looks at keys and handles, so it commutes
with forgetting identities. -/
theorem dictDeletePass_strip_congr (fs : List Pred) {b b' : List DictEntry}
    (h : stripD b = stripD b') :
    stripD (dictDeletePass fs b) = stripD (dictDeletePass fs b') := by
  rw [dictDeletePass, dictDeletePass, dictDeleteLoop_eq, dictDeleteLoop_eq]
  rw [stripD_filter_key, stripD_filter_key, h, badKeys_strip fs h]

theorem stripA_filter (fs : List Pred) (b : List (String × NodeData)) :
    stripA (b.filter (fun e => keepAny fs e.2.obj))
      = (stripA b).filter (fun e => keepAny fs e.2.obj) := by
  unfold stripA
  rw [List.filter_map]
  rfl

/-- The list-filtering pass only looks at handles, so it commutes with
forgetting identities. -/
theorem listAppendPass_strip_congr (fs : List Pred) {b b' : List (String × NodeData)}
    (h : stripA b = stripA b') :
    stripA (listAppendPass fs b) = stripA (listAppendPass fs b') := by
  rw [listAppendPass_eq_filter, listAppendPass_eq_filter, stripA_filter, stripA_filter, h]

/-- Claim C1 (amended): calling `cache` twice yields the same public and
private attribute maps — same keys and the very same child nodes, none
rebuilt or duplicated — and the same filtered attribute views, as calling
it once; the container views keep the same keys, display lines, derived
fields and order, but their child nodes are rebuilt fresh by the second
call (their identities differ). -/
theorem c1_cache_idempotent_members {p : Provider} {c c1 c2 : CachedObject}
    {ctr n1 n2 : Nat}
    (h1 : CachedObject.cache p c ctr = Except.ok (c1, n1))
    (h2 : CachedObject.cache p c1 n1 = Except.ok (c2, n2)) :
    c2.public_attributes = c1.public_attributes ∧
    c2.private_attributes = c1.private_attributes ∧
    c2.filtered_public_attributes = c1.filtered_public_attributes ∧
    c2.filtered_private_attributes = c1.filtered_private_attributes ∧
    stripD c2.filtered_dict = stripD c1.filtered_dict ∧
    stripA c2.filtered_list = stripA c1.filtered_list := by
  obtain ⟨pub1, x1, priv1, x2, hbp1, hbv1, hf1⟩ := cache_ok_dest h1
  obtain ⟨db1, m1, lb1, hdb1, hlb1, hcore1, hid1, hfil1, hpub1, hpriv1, hfp1, hfv1, hfd1, hfl1⟩ :=
    filter_ok_dest hf1
  have hc1core : c1.toNodeCore = c.toNodeCore := hcore1
  have hc1fil : c1.filters = c.filters := hfil1
  have hc1pub : c1.public_attributes = pub1 := hpub1
  have hc1priv : c1.private_attributes = priv1 := hpriv1
  have hplainpub : c1.plain_public_attributes = c.plain_public_attributes :=
    congrArg NodeCore.plain_public_attributes hc1core
  have hplainpriv : c1.plain_private_attributes = c.plain_private_attributes :=
    congrArg NodeCore.plain_private_attributes hc1core
  have hobj : c1.obj = c.obj := congrArg NodeCore.obj hc1core
  have hdot : c1.dotpath = c.dotpath := congrArg NodeCore.dotpath hc1core
  have hfp1' : c1.filtered_public_attributes
      = if c.filters.isEmpty then pub1 else filterLoopA c.filters pub1 := hfp1
  have hfv1' : c1.filtered_private_attributes
      = if c.filters.isEmpty then priv1 else filterLoopA c.filters priv1 := hfv1
  have hfd1' : c1.filtered_dict
      = if c.filters.isEmpty then db1 else dictDeletePass c.filters db1 := hfd1
  have hfl1' : c1.filtered_list
      = if c.filters.isEmpty then lb1 else listAppendPass c.filters lb1 := hfl1
  obtain ⟨pub2, y1, priv2, y2, hbp2, hbv2, hf2⟩ := cache_ok_dest h2
  -- the second cache pass settles on c1's attribute maps unchanged
  have hpub2 : pub2 = c1.public_attributes := by
    rcases hbp2 with ⟨hemp, hb⟩ | ⟨_, he, _⟩
    · have hc1pub0 : c1.public_attributes = [] := by
        rwa [List.isEmpty_iff] at hemp
      have hplain0 : c1.plain_public_attributes = [] := by
        rcases hbp1 with ⟨_, hb1⟩ | ⟨hne1, he1, _⟩
        · have hp10 : pub1 = [] := hc1pub.symm.trans hc1pub0
          subst hp10
          have hlen := buildAttrs_ok_length p c.obj c.dotpath _ _ _ _ hb1
          rw [hplainpub]
          exact List.length_eq_zero.mp hlen.symm
        · exfalso
          rw [hc1pub, he1] at hc1pub0
          rw [hc1pub0] at hne1
          simp at hne1
      rw [hplain0] at hb
      simp only [buildAttrs, Except.ok.injEq, Prod.mk.injEq] at hb
      rw [← hb.1, hc1pub0]
    · exact he
  subst hpub2
  have hpriv2 : priv2 = c1.private_attributes := by
    rcases hbv2 with ⟨hemp, hb⟩ | ⟨_, he, _⟩
    · have hc1priv0 : c1.private_attributes = [] := by
        rwa [List.isEmpty_iff] at hemp
      have hplain0 : c1.plain_private_attributes = [] := by
        rcases hbv1 with ⟨_, hb1⟩ | ⟨hne1, he1, _⟩
        · have hp10 : priv1 = [] := hc1priv.symm.trans hc1priv0
          subst hp10
          have hlen := buildAttrs_ok_length p c.obj c.dotpath _ _ _ _ hb1
          rw [hplainpriv]
          exact List.length_eq_zero.mp hlen.symm
        · exfalso
          rw [hc1priv, he1] at hc1priv0
          rw [hc1priv0] at hne1
          simp at hne1
      rw [hplain0] at hb
      simp only [buildAttrs, Except.ok.injEq, Prod.mk.injEq] at hb
      rw [← hb.1, hc1priv0]
    · exact he
  subst hpriv2
  have hf2' : CachedObject.filter p c1 y2 = Except.ok (c2, n2) := hf2
  obtain ⟨db2, m2, lb2, hdb2, hlb2, hcore2, hid2, hfil2, hpub2, hpriv2, hfp2, hfv2, hfd2, hfl2⟩ :=
    filter_ok_dest hf2'
  -- the rebuilt container entries differ only in their identities
  have hdb1' : CachedObject.dictPart p c1 x2 = Except.ok (db1, m1) := by
    unfold CachedObject.dictPart at hdb1 ⊢
    rw [hobj, hdot]
    exact hdb1
  have hlb1' : CachedObject.listPart p c1 m1 = Except.ok (lb1, n1) := by
    unfold CachedObject.listPart at hlb1 ⊢
    rw [hobj, hdot]
    exact hlb1
  have hstripdb : stripD db2 = stripD db1 := by
    unfold CachedObject.dictPart at hdb1' hdb2
    cases hdi : p.dictItems c1.obj with
    | none =>
      rw [hdi] at hdb1' hdb2
      simp only [Except.ok.injEq, Prod.mk.injEq] at hdb1' hdb2
      rw [← hdb1'.1, ← hdb2.1]
    | some kvs =>
      rw [hdi] at hdb1' hdb2
      dsimp only at hdb1' hdb2
      obtain ⟨l2, hl2, hs2, -⟩ := buildDictEntries_shift p c1.dotpath kvs _ _ _ hdb1' y2
      have hcomb := hl2.symm.trans hdb2
      simp only [Except.ok.injEq, Prod.mk.injEq] at hcomb
      rw [hcomb.1] at hs2
      exact hs2
  have hstriplb : stripA lb2 = stripA lb1 := by
    unfold CachedObject.listPart at hlb1' hlb2
    cases hsi : p.seqItems c1.obj with
    | none =>
      rw [hsi] at hlb1' hlb2
      simp only [Except.ok.injEq, Prod.mk.injEq] at hlb1' hlb2
      rw [← hlb1'.1, ← hlb2.1]
    | some items =>
      rw [hsi] at hlb1' hlb2
      dsimp only at hlb1' hlb2
      obtain ⟨l2, hl2, hs2, -⟩ := buildListEntries_shift p c1.dotpath items _ _ _ _ hlb1' m2
      have hcomb := hl2.symm.trans hlb2
      simp only [Except.ok.injEq, Prod.mk.injEq] at hcomb
      rw [hcomb.1] at hs2
      exact hs2
  refine ⟨hpub2, hpriv2, ?_, ?_, ?_, ?_⟩
  · rw [hfp2, hfp1', hc1fil, hc1pub]
  · rw [hfv2, hfv1', hc1fil, hc1priv]
  · rw [hfd2, hfd1', hc1fil]
    by_cases hf : c.filters.isEmpty
    · simp only [hf, if_true]
      exact hstripdb
    · simp only [hf, if_false]
      exact dictDeletePass_strip_congr c.filters hstripdb
  · rw [hfl2, hfl1', hc1fil]
    by_cases hf : c.filters.isEmpty
    · simp only [hf, if_true]
      exact hstriplb
    · simp only [hf, if_false]
      exact listAppendPass_strip_congr c.filters hstriplb

/-- Extract the node of a successful cache/filter run (defaulting on
error). -/
def okCached (r : Except String (CachedObject × Nat)) : CachedObject :=
  match r with
  | .ok x => x.1
  | .error _ => nd0.toCached

/-- A provider whose root object is a one-entry dict. -/
def pC1 : Provider :=
  { baseProv with dictItems := fun o => if o = 0 then some [(5, 6)] else none }

/-- The freshly built root node over `pC1`. -/
def cC1 : CachedObject :=
  (okNode (CachedObject.init pC1 0 0 none (some "root") none)).toCached

/-- The root after one cache pass. -/
def cC1a : CachedObject := okCached (CachedObject.cache pC1 cC1 1)

/-- The root after a second cache pass. -/
def cC1b : CachedObject := okCached (CachedObject.cache pC1 cC1a 2)

/-- Counterexample to claim C1 as stated: the second `cache` call rebuilds
the dict container entry, so its child node is a fresh object — the child
identities after two calls differ from those after one. -/
theorem c1_cache_twice_rebuilds_entries :
    cC1a.filtered_dict.map (fun e => e.2.2.id) = [1] ∧
    cC1b.filtered_dict.map (fun e => e.2.2.id) = [2] ∧
    cC1b.filtered_dict.map (fun e => e.2.2.id)
      ≠ cC1a.filtered_dict.map (fun e => e.2.2.id) := by
  refine ⟨by decide, by decide, by decide⟩

/-- Witness for the amended C1, on the dict provider. -/
theorem c1_cache_idempotent_members_witness :
    cC1b.public_attributes = cC1a.public_attributes ∧
    cC1b.private_attributes = cC1a.private_attributes ∧
    cC1b.filtered_public_attributes = cC1a.filtered_public_attributes ∧
    cC1b.filtered_private_attributes = cC1a.filtered_private_attributes ∧
    stripD cC1b.filtered_dict = stripD cC1a.filtered_dict ∧
    stripA cC1b.filtered_list = stripA cC1a.filtered_list :=
  @c1_cache_idempotent_members pC1 cC1 cC1a cC1b 1 2 3 rfl rfl

/-- A provider whose root object has five members (three with odd handles),
a two-entry dict body and a three-item sequence body. -/
def pC3 : Provider :=
  { baseProv with
      dir := fun o => if o = 0 then ["a", "b", "c", "d", "e"] else []
      getattr := fun o a =>
        if o = 0 then
          if a = "a" then some 11 else if a = "b" then some 12
          else if a = "c" then some 13 else if a = "d" then some 14
          else if a = "e" then some 15 else none
        else none
      dictItems := fun o => if o = 0 then some [(21, 31), (22, 32)] else none
      seqItems := fun o => if o = 0 then some [41, 42, 43] else none }

/-- The cached root node over `pC3`. -/
def cC3 : CachedObject :=
  okCached (CachedObject.cache pC3
    (okNode (CachedObject.init pC3 0 0 none (some "root") none)).toCached 1)

/-- A predicate keeping odd handles. -/
def oddPred : Pred := fun o => decide (o % 2 = 1)

/-- `cC3` with one active filter, as `set_filters` leaves it. -/
def cF3 : CachedObject := { cC3 with filters := [oddPred] }

/-- Witness for C3: with the odd-handle predicate active, the filtered
public view keeps exactly the OR-matching children, in order. -/
theorem c3_filter_or_semantics_witness :
    (okCached (CachedObject.filter pC3 cF3 20)).filtered_public_attributes
      = cF3.public_attributes.filter (fun e => cF3.filters.any (fun f => f e.2.obj)) ∧
    (okCached (CachedObject.filter pC3 cF3 20)).filtered_public_attributes.map
        (fun e => e.1) = ["a", "c", "e"] := by
  have hnd : DictKeysNodup pC3 cF3 := by
    intro kvs hkv
    have h0 : pC3.dictItems cF3.obj = some [(21, 31), (22, 32)] := rfl
    have h1 := h0.symm.trans hkv
    simp only [Option.some.injEq] at h1
    subst h1
    decide
  have heq : CachedObject.filter pC3 cF3 20
      = Except.ok (okCached (CachedObject.filter pC3 cF3 20), 25) := rfl
  have h := c3_filter_or_semantics pC3 cF3 20 hnd
    (okCached (CachedObject.filter pC3 cF3 20)) 25 heq
  have hne : cF3.filters.isEmpty = false := rfl
  have h1 := h.1
  rw [hne] at h1
  simp only [Bool.false_eq_true, if_false] at h1
  exact ⟨h1, by rw [h1]; decide⟩

/-! ## Claims about the navigation stack (C6, C9, C7, C4) -/

/-- Claim C6: the back branch on a stack holding only the single root
frame is a no-op — the stack, the current node, and all UI state are left
unchanged, and no error is raised.  (The guard of `StackLayout.pop` is
modelled from the spec; the reassignments of `objexplore.py` lines 187-189
then re-read the same root frame.) -/
theorem c6_pop_root_noop (st : Explorer) (fr : StackFrame)
    (h1 : st.stack = [fr])
    (h2 : st.cached_obj = fr.cached_obj)
    (h3 : st.explorer_layout = fr.explorer_layout)
    (h4 : st.overview_layout = fr.overview_layout) :
    st.popFrame = st := by
  unfold Explorer.popFrame
  rw [h1]
  simp only [List.isEmpty_cons, List.length_singleton, Nat.lt_irrefl, if_false,
    List.getLast?_singleton, Bool.false_eq_true]
  rw [← h1, ← h2, ← h3, ← h4]

/-- A one-frame explorer over the dict provider. -/
def frW : StackFrame := { cached_obj := cC1a, explorer_layout := 0, overview_layout := 0 }

def stW6 : Explorer :=
  { cached_obj := cC1a, stack := [frW], stack_visible := false, stack_index := 0
    explorer_layout := 0, overview_layout := 0
    elHeap := fun _ => { state := CollSel.publicAttrs, cursor := 0 }
    olHeap := fun _ => { state := OvState.all, preview_state := PrevState.repr }
    nextEL := 1, ctr := 4 }

/-- Witness for C6. -/
theorem c6_pop_root_noop_witness : stW6.popFrame = stW6 :=
  c6_pop_root_noop stW6 frW rfl rfl rfl rfl

/-- Claim C9: drilling into a node that is not selectable is a guarded
no-op — the guard of `objexplore.py` line 170 returns before any state is
touched, so the navigation stack, current node and all UI state are
unchanged and no error is surfaced. -/
theorem c9_push_nonselectable_noop (p : Provider) (st : Explorer) (nd : NodeData)
    (hvis : st.stack_visible = false)
    (hsel : st.selected_object = some nd)
    (hns : p.selectable nd.obj = false) :
    Explorer.step p st Op.enter = Except.ok st := by
  simp only [Explorer.step, hvis, Bool.false_eq_true, if_false]
  unfold Explorer.pushSelected
  rw [hsel]
  dsimp only
  rw [hns]
  simp

/-- Dummy explorer used only as the default of `okExplorer`. -/
def stDflt : Explorer :=
  { cached_obj := nd0.toCached, stack := [], stack_visible := false, stack_index := 0
    explorer_layout := 0, overview_layout := 0
    elHeap := fun _ => { state := CollSel.publicAttrs, cursor := 0 }
    olHeap := fun _ => { state := OvState.all, preview_state := PrevState.repr }
    nextEL := 1, ctr := 0 }

/-- Extract a successfully constructed explorer (defaulting on error). -/
def okExplorer (r : Except String Explorer) : Explorer :=
  match r with
  | .ok s => s
  | .error _ => stDflt

/-- A provider whose root has one member that is not selectable. -/
def pC9 : Provider :=
  { baseProv with
      dir := fun o => if o = 0 then ["a"] else []
      getattr := fun o a => if o = 0 && a = "a" then some 1 else none
      selectable := fun o => o ≠ 1 }

def stW9 : Explorer := okExplorer (Explorer.make pC9 0 "root")

/-- Witness for C9. -/
theorem c9_push_nonselectable_noop_witness :
    Explorer.step pC9 stW9 Op.enter = Except.ok stW9 :=
  c9_push_nonselectable_noop pC9 stW9 ((stW9.selected_object).getD nd0) rfl rfl rfl

/-- What an excursion above a base state `st0` preserves: the base stack is
an untouched prefix, every frame above it (and the current layout) uses a
layout reference allocated after `st0`, and every layout `st0` could see is
unchanged in the heap. -/
structure Prot (st0 st : Explorer) : Prop where
  pref : st0.stack <+: st.stack
  nextLe : st0.nextEL ≤ st.nextEL
  frFresh : ∀ i fr, st0.stack.length ≤ i → st.stack.get? i = some fr →
    st0.nextEL ≤ fr.explorer_layout
  curFresh : st0.nextEL ≤ st.explorer_layout
  heapOld : ∀ e, e < st0.nextEL → st.elHeap e = st0.elHeap e

theorem get?_lt_length {α : Type} {l : List α} {n : Nat} {a : α}
    (h : l.get? n = some a) : n < l.length := by
  by_contra hc
  push_neg at hc
  rw [List.get?_eq_none.mpr hc] at h
  cases h

theorem prot_heap_write {st0 : Explorer} {h : Nat → ExplorerLayoutSt} {w : Nat}
    {v : ExplorerLayoutSt}
    (hw : st0.nextEL ≤ w) (hold : ∀ e, e < st0.nextEL → h e = st0.elHeap e) :
    ∀ e, e < st0.nextEL → (fun i => if i = w then v else h i) e = st0.elHeap e := by
  intro e he
  have hne : e ≠ w := by omega
  show (if e = w then v else h e) = st0.elHeap e
  rw [if_neg hne]
  exact hold e he

/-- Appending a fresh frame to a protected state keeps it protected. -/
theorem prot_append {st0 st : Explorer} (hp : Prot st0 st)
    {cobj : CachedObject} {ctr' : Nat} {v : ExplorerLayoutSt} {ol : Nat} :
    Prot st0
      { st with
          explorer_layout := st.nextEL
          elHeap := fun i => if i = st.nextEL then v else st.elHeap i
          nextEL := st.nextEL + 1
          cached_obj := cobj
          ctr := ctr'
          stack := st.stack ++
            [{ cached_obj := cobj, explorer_layout := st.nextEL, overview_layout := ol }] } := by
  refine ⟨?_, ?_, ?_, ?_, ?_⟩
  · exact hp.pref.trans (List.prefix_append st.stack _)
  · exact Nat.le_succ_of_le hp.nextLe
  · intro i fr hd hget
    by_cases hi : i < st.stack.length
    · rw [List.get?_append hi] at hget
      exact hp.frFresh i fr hd hget
    · have hi' : i < st.stack.length + 1 := by
        have := get?_lt_length hget
        simpa using this
      have hieq : i = st.stack.length := by omega
      subst hieq
      rw [List.get?_concat_length] at hget
      cases hget
      exact hp.nextLe
  · exact hp.nextLe
  · exact prot_heap_write hp.nextLe hp.heapOld

/-- Truncating a protected stack no deeper than the base keeps the base
prefix and the freshness of the surviving upper frames. -/
theorem prot_take {st0 st : Explorer} (hp : Prot st0 st) {n : Nat}
    (hn : st0.stack.length ≤ n) :
    st0.stack <+: st.stack.take n ∧
    (∀ i fr, st0.stack.length ≤ i → (st.stack.take n).get? i = some fr →
      st0.nextEL ≤ fr.explorer_layout) := by
  constructor
  · exact List.prefix_take_iff.mpr ⟨hp.pref, hn⟩
  · intro i fr hd hget
    have hlen := get?_lt_length hget
    have hi : i < n := by
      simp only [List.length_take] at hlen
      omega
    rw [List.get?_take hi] at hget
    exact hp.frFresh i fr hd hget

/-- One key event keeps an excursion protected as long as it stays
strictly deeper than the base state. -/
theorem prot_step {p : Provider} {st0 st st' : Explorer} {op : Op}
    (hp : Prot st0 st) (hdeep : st0.stack.length < st.stack.length)
    (hstep : Explorer.step p st op = Except.ok st')
    (hdeep' : st0.stack.length < st'.stack.length) :
    Prot st0 st' := by
  cases op with
  | moveUp =>
    simp only [Explorer.step, Except.ok.injEq] at hstep
    subst hstep
    by_cases hv : st.stack_visible <;> simp only [hv, if_true, if_false]
    · exact ⟨hp.pref, hp.nextLe, hp.frFresh, hp.curFresh, hp.heapOld⟩
    · exact ⟨hp.pref, hp.nextLe, hp.frFresh, hp.curFresh,
        prot_heap_write hp.curFresh hp.heapOld⟩
  | moveDown =>
    simp only [Explorer.step, Except.ok.injEq] at hstep
    subst hstep
    by_cases hv : st.stack_visible <;> simp only [hv, if_true, if_false]
    · exact ⟨hp.pref, hp.nextLe, hp.frFresh, hp.curFresh, hp.heapOld⟩
    · exact ⟨hp.pref, hp.nextLe, hp.frFresh, hp.curFresh,
        prot_heap_write hp.curFresh hp.heapOld⟩
  | toggleColl =>
    simp only [Explorer.step, Except.ok.injEq] at hstep
    subst hstep
    exact ⟨hp.pref, hp.nextLe, hp.frFresh, hp.curFresh,
      prot_heap_write hp.curFresh hp.heapOld⟩
  | togglePrev =>
    simp only [Explorer.step, Except.ok.injEq] at hstep
    subst hstep
    unfold Explorer.togglePreview
    cases st.selected_object with
    | none => exact ⟨hp.pref, hp.nextLe, hp.frFresh, hp.curFresh, hp.heapOld⟩
    | some nd =>
      dsimp only
      by_cases hc : nd.is_callable <;> simp only [hc, Bool.not_true, Bool.not_false,
        Bool.false_eq_true, Bool.true_eq_false, if_true, if_false]
      · exact ⟨hp.pref, hp.nextLe, hp.frFresh, hp.curFresh, hp.heapOld⟩
      · exact ⟨hp.pref, hp.nextLe, hp.frFresh, hp.curFresh, hp.heapOld⟩
  | stackView =>
    simp only [Explorer.step, Except.ok.injEq] at hstep
    subst hstep
    unfold Explorer.toggleStackView
    by_cases hv : st.stack_visible <;> simp only [hv, if_true, if_false, Bool.false_eq_true]
    · exact ⟨hp.pref, hp.nextLe, hp.frFresh, hp.curFresh, hp.heapOld⟩
    · exact ⟨hp.pref, hp.nextLe, hp.frFresh, hp.curFresh, hp.heapOld⟩
  | back =>
    simp only [Explorer.step, Except.ok.injEq] at hstep
    subst hstep
    unfold Explorer.popFrame
    have hne : st.stack.isEmpty = false := by
      cases hs : st.stack with
      | nil => rw [hs] at hdeep; simp at hdeep
      | cons a l => rfl
    rw [hne]
    simp only [Bool.false_eq_true, if_false]
    by_cases hlen : 1 < st.stack.length
    · simp only [hlen, if_true]
      cases hlast : st.stack.dropLast.getLast? with
      | none => exact ⟨hp.pref, hp.nextLe, hp.frFresh, hp.curFresh, hp.heapOld⟩
      | some fr =>
        dsimp only
        have hdeepd : st0.stack.length < st.stack.dropLast.length := by
          unfold Explorer.popFrame at hdeep'
          rw [hne] at hdeep'
          simp only [Bool.false_eq_true, if_false, hlen, if_true, hlast] at hdeep'
          exact hdeep'
        have hpref : st0.stack <+: st.stack.dropLast := by
          rw [List.dropLast_eq_take]
          exact (prot_take hp (by simp at hdeepd; omega)).1
        have hfr : ∀ i f, st0.stack.length ≤ i → st.stack.dropLast.get? i = some f →
            st0.nextEL ≤ f.explorer_layout := by
          rw [List.dropLast_eq_take]
          exact (prot_take hp (by simp at hdeepd; omega)).2
        refine ⟨hpref, hp.nextLe, hfr, ?_, hp.heapOld⟩
        · -- the new current layout is the tail of the truncated stack
          rw [List.getLast?_eq_get?] at hlast
          exact hfr _ _ (by
            have := get?_lt_length hlast
            omega) hlast
    · simp only [hlen, if_false]
      cases hlast : st.stack.getLast? with
      | none => exact ⟨hp.pref, hp.nextLe, hp.frFresh, hp.curFresh, hp.heapOld⟩
      | some fr =>
        dsimp only
        refine ⟨hp.pref, hp.nextLe, hp.frFresh, ?_, hp.heapOld⟩
        rw [List.getLast?_eq_get?] at hlast
        exact hp.frFresh _ _ (by omega) hlast
  | enter =>
    simp only [Explorer.step] at hstep
    by_cases hv : st.stack_visible
    · rw [if_pos hv] at hstep
      unfold Explorer.jumpSelect at hstep
      cases hidx : st.stack.get? st.stack_index with
      | none => rw [hidx] at hstep; cases hstep
      | some fr =>
        rw [hidx] at hstep
        dsimp only at hstep
        by_cases hid : fr.cached_obj.id = st.cached_obj.id
        · rw [if_pos hid] at hstep
          cases hstep
          exact ⟨hp.pref, hp.nextLe, hp.frFresh, hp.curFresh, hp.heapOld⟩
        · rw [if_neg hid] at hstep
          obtain ⟨x, hx, hstep⟩ := exbind_eq_ok hstep
          obtain ⟨cobj, ctr'⟩ := x
          dsimp only at hstep
          simp only [Except.ok.injEq] at hstep
          subst hstep
          have hdidx : st0.stack.length ≤ st.stack_index := by
            have hlt := get?_lt_length hidx
            simp only [List.length_append, List.length_take, List.length_singleton] at hdeep'
            omega
          refine ⟨?_, Nat.le_succ_of_le hp.nextLe, ?_, hp.nextLe,
            prot_heap_write hp.nextLe hp.heapOld⟩
          · exact ((prot_take hp hdidx).1).trans (List.prefix_append _ _)
          · intro i f hd hget
            have hlt := get?_lt_length hidx
            have htklen : (st.stack.take st.stack_index).length = st.stack_index := by
              simp
              omega
            by_cases hi : i < st.stack_index
            · rw [List.get?_append (by omega)] at hget
              exact (prot_take hp hdidx).2 i f hd hget
            · have hi' : i = st.stack_index := by
                have hl2 := get?_lt_length hget
                simp only [List.length_append, htklen, List.length_singleton] at hl2
                omega
              subst hi'
              have hget' : (st.stack.take st.stack_index ++
                  [({ cached_obj := cobj, explorer_layout := st.nextEL,
                      overview_layout := st.overview_layout } : StackFrame)]).get? st.stack_index
                  = some f := hget
              have hcat := List.get?_concat_length (st.stack.take st.stack_index)
                ({ cached_obj := cobj, explorer_layout := st.nextEL,
                   overview_layout := st.overview_layout } : StackFrame)
              rw [htklen] at hcat
              have hff := hcat.symm.trans hget'
              simp only [Option.some.injEq] at hff
              rw [← hff]
              exact hp.nextLe
    · rw [if_neg hv] at hstep
      unfold Explorer.pushSelected at hstep
      cases hsel : st.selected_object with
      | none =>
        rw [hsel] at hstep
        cases hstep
        exact ⟨hp.pref, hp.nextLe, hp.frFresh, hp.curFresh, hp.heapOld⟩
      | some nd =>
        rw [hsel] at hstep
        dsimp only at hstep
        by_cases hns : !p.selectable nd.obj
        · rw [if_pos hns] at hstep
          cases hstep
          exact ⟨hp.pref, hp.nextLe, hp.frFresh, hp.curFresh, hp.heapOld⟩
        · rw [if_neg hns] at hstep
          obtain ⟨x, hx, hstep⟩ := exbind_eq_ok hstep
          obtain ⟨cobj, ctr'⟩ := x
          dsimp only at hstep
          simp only [Except.ok.injEq] at hstep
          subst hstep
          exact prot_append hp

/-- A protected excursion stays protected along any run that keeps the
depth strictly above the base. -/
theorem prot_run {p : Provider} {st0 : Explorer} :
    ∀ (ops : List Op) (st st' : Explorer), Prot st0 st →
      st0.stack.length < st.stack.length →
      (∀ i s, Explorer.run p st (ops.take i) = Except.ok s →
        st0.stack.length < s.stack.length) →
      Explorer.run p st ops = Except.ok st' →
      Prot st0 st' ∧ st0.stack.length < st'.stack.length := by
  intro ops
  induction ops with
  | nil =>
    intro st st' hp hdeep hmid hrun
    simp only [Explorer.run, Except.ok.injEq] at hrun
    subst hrun
    exact ⟨hp, hdeep⟩
  | cons op ops ih =>
    intro st st' hp hdeep hmid hrun
    simp only [Explorer.run] at hrun
    obtain ⟨s1, hs1, hrun⟩ := exbind_eq_ok hrun
    have hone : Explorer.run p st ((op :: ops).take 1) = Except.ok s1 := by
      simp only [List.take_succ_cons, List.take_zero, Explorer.run]
      rw [hs1, exbind_ok]
    have hdeep1 := hmid 1 s1 hone
    have hp1 := prot_step hp hdeep hs1 hdeep1
    refine ih s1 st' hp1 hdeep1 ?_ hrun
    intro i s h
    refine hmid (i + 1) s ?_
    simp only [List.take_succ_cons, Explorer.run]
    rw [hs1, exbind_ok]
    exact h

/-- Claim C4 (amended): after drilling in and any sequence of key events
that stays strictly below the starting depth, the pop that returns to the
starting depth restores the prior frame's explorer layout — the cursor
selection position and the active collection selector are exactly as the
frame left them.  (Preview mode is not part of this: a single overview
layout instance is shared by every frame, so pop re-reads the same object
and the preview state keeps its latest value.) -/
theorem c4_pop_restores_selection (p : Provider) (st0 st1 st2 : Explorer)
    (mid : List Op) (fr0 : StackFrame)
    (hvis : st0.stack_visible = false)
    (hFresh : ∀ fr ∈ st0.stack, fr.explorer_layout < st0.nextEL)
    (hlast : st0.stack.getLast? = some fr0)
    (hfrel : fr0.explorer_layout = st0.explorer_layout)
    (hpush : Explorer.step p st0 Op.enter = Except.ok st1)
    (hgrow : st1.stack.length = st0.stack.length + 1)
    (hrun : Explorer.run p st1 mid = Except.ok st2)
    (hmid : ∀ i s, Explorer.run p st1 (mid.take i) = Except.ok s →
      st0.stack.length < s.stack.length)
    (hend : st2.stack.length = st0.stack.length + 1) :
    st2.popFrame.explorer_layout = st0.explorer_layout ∧
    st2.popFrame.elHeap st2.popFrame.explorer_layout
      = st0.elHeap st0.explorer_layout := by
  have hne : st0.stack ≠ [] := by
    intro h
    rw [h] at hlast
    cases hlast
  have hd1 : 0 < st0.stack.length := List.length_pos.mpr hne
  -- the push step leaves a protected excursion
  have hp1 : Prot st0 st1 := by
    simp only [Explorer.step, hvis, Bool.false_eq_true, if_false] at hpush
    unfold Explorer.pushSelected at hpush
    cases hsel : st0.selected_object with
    | none =>
      rw [hsel] at hpush
      cases hpush
      exact absurd hgrow (by omega)
    | some nd =>
      rw [hsel] at hpush
      dsimp only at hpush
      by_cases hns : !p.selectable nd.obj
      · rw [if_pos hns] at hpush
        cases hpush
        exact absurd hgrow (by omega)
      · rw [if_neg hns] at hpush
        obtain ⟨x, hx, hpush⟩ := exbind_eq_ok hpush
        obtain ⟨cobj, ctr'⟩ := x
        dsimp only at hpush
        simp only [Except.ok.injEq] at hpush
        subst hpush
        refine ⟨List.prefix_append _ _, Nat.le_succ _, ?_, Nat.le_refl _, ?_⟩
        · intro i fr hd hget
          by_cases hi : i < st0.stack.length
          · omega
          · have hi2 := get?_lt_length hget
            simp only [List.length_append, List.length_singleton] at hi2
            have hieq : i = st0.stack.length := by omega
            subst hieq
            have hget' : (st0.stack ++
                [({ cached_obj := cobj, explorer_layout := st0.nextEL,
                    overview_layout := st0.overview_layout } : StackFrame)]).get?
                  st0.stack.length = some fr := hget
            rw [List.get?_concat_length] at hget'
            cases hget'
            exact Nat.le_refl _
        · intro e he
          have hne2 : e ≠ st0.nextEL := by omega
          show (if e = st0.nextEL then _ else st0.elHeap e) = st0.elHeap e
          rw [if_neg hne2]
  have hp2 : Prot st0 st2 :=
    (prot_run mid st1 st2 hp1 (by omega) hmid hrun).1
  have hlen2 : st2.stack.isEmpty = false := by
    cases h2s : st2.stack with
    | nil =>
      rw [h2s] at hend
      exact absurd hend (by simp)
    | cons a l => rfl
  have hlt : 1 < st2.stack.length := by omega
  have hdrop : st2.stack.dropLast = st0.stack := by
    rw [List.dropLast_eq_take, hend]
    simp only [Nat.add_sub_cancel]
    exact (List.prefix_iff_eq_take.mp hp2.pref).symm
  have hpop : st2.popFrame
      = { st2 with
          stack := st0.stack
          cached_obj := fr0.cached_obj
          explorer_layout := fr0.explorer_layout
          overview_layout := fr0.overview_layout } := by
    unfold Explorer.popFrame
    rw [hlen2]
    simp only [Bool.false_eq_true, if_false]
    rw [if_pos hlt, hdrop, hlast]
  have hbound : st0.explorer_layout < st0.nextEL := by
    rw [← hfrel]
    exact hFresh fr0 (List.get?_mem (by
      rw [← List.getLast?_eq_get?]
      exact hlast))
  constructor
  · rw [hpop]
    exact hfrel
  · rw [hpop]
    show st2.elHeap fr0.explorer_layout = st0.elHeap st0.explorer_layout
    rw [hfrel]
    exact hp2.heapOld st0.explorer_layout hbound

/-- Claim C7 (amended): with the history view open, selecting the frame of
the already-current object is a no-op; selecting any other frame truncates
the stack to the chosen depth and makes that frame's node current, but
with a *fresh* UI state — the new explorer layout starts at the first
entry of the public view — rather than the frame's saved one, and the
history view closes. -/
theorem c7_jump_truncates_fresh_state (p : Provider) (st : Explorer) (fr : StackFrame)
    (hvis : st.stack_visible = true)
    (hidx : st.stack.get? st.stack_index = some fr) :
    (fr.cached_obj.id = st.cached_obj.id →
      Explorer.step p st Op.enter = Except.ok st) ∧
    (fr.cached_obj.id ≠ st.cached_obj.id →
      ∀ st', Explorer.step p st Op.enter = Except.ok st' →
        st'.stack.length = st.stack_index + 1 ∧
        st'.stack.take st.stack_index = st.stack.take st.stack_index ∧
        st'.cached_obj.id = fr.cached_obj.id ∧
        st'.elHeap st'.explorer_layout = { state := CollSel.publicAttrs, cursor := 0 } ∧
        st'.stack_visible = false) := by
  constructor
  · intro hid
    simp only [Explorer.step, hvis, if_true]
    unfold Explorer.jumpSelect
    rw [hidx]
    dsimp only
    rw [if_pos hid]
  · intro hid st' hstep
    simp only [Explorer.step, hvis, if_true] at hstep
    unfold Explorer.jumpSelect at hstep
    rw [hidx] at hstep
    dsimp only at hstep
    rw [if_neg hid] at hstep
    obtain ⟨x, hx, hstep⟩ := exbind_eq_ok hstep
    obtain ⟨cobj, ctr'⟩ := x
    dsimp only at hstep
    simp only [Except.ok.injEq] at hstep
    subst hstep
    have hlt := get?_lt_length hidx
    refine ⟨?_, ?_, ?_, ?_, rfl⟩
    · dsimp only
      simp only [List.length_append, List.length_take, List.length_singleton]
      omega
    · dsimp only
      rw [List.take_append_of_le_length (by simp; omega)]
      simp [List.take_take]
    · exact (cache_preserves hx).2.1
    · dsimp only
      rw [if_pos rfl]

/-- A provider whose root object has two selectable members. -/
def pC7 : Provider :=
  { baseProv with
      dir := fun o => if o = 0 then ["a", "b"] else []
      getattr := fun o a =>
        if o = 0 then
          if a = "a" then some 1 else if a = "b" then some 2 else none
        else none }

def stW7 : Explorer := okExplorer (Explorer.make pC7 0 "root")

/-- The explorer just before the jump: cursor moved to the second member,
drilled in, history view opened, history cursor moved to the root frame. -/
def stPre7 : Explorer :=
  okExplorer (Explorer.run pC7 stW7 [Op.moveDown, Op.enter, Op.stackView, Op.moveUp])

/-- The explorer after the jump back to the root frame. -/
def c7run : Explorer := okExplorer (Explorer.run pC7 stW7
  [Op.moveDown, Op.enter, Op.stackView, Op.moveUp, Op.enter])

/-- Counterexample to claim C7 as stated: jumping back to the root frame
does truncate the stack, but the root frame's saved cursor position (1) is
not restored — the current layout after the jump is a fresh one with
cursor 0, while the saved layout still holds 1. -/
theorem c7_jump_resets_selection :
    c7run.stack.length = 1 ∧
    (c7run.elHeap c7run.explorer_layout).cursor = 0 ∧
    (stPre7.elHeap ((stPre7.stack.get? 0).getD frW).explorer_layout).cursor = 1 ∧
    (0 : Nat) ≠ 1 := by
  refine ⟨by decide, by decide, by decide, by decide⟩

/-- Witness for the amended C7, at the concrete jump of `stPre7`. -/
theorem c7_jump_truncates_fresh_state_witness :
    c7run.stack.length = stPre7.stack_index + 1 ∧
    c7run.stack.take stPre7.stack_index = stPre7.stack.take stPre7.stack_index ∧
    c7run.cached_obj.id
      = ((stPre7.stack.get? stPre7.stack_index).getD frW).cached_obj.id ∧
    c7run.elHeap c7run.explorer_layout = { state := CollSel.publicAttrs, cursor := 0 } ∧
    c7run.stack_visible = false :=
  (c7_jump_truncates_fresh_state pC7 stPre7
    ((stPre7.stack.get? stPre7.stack_index).getD frW) rfl rfl).2
    (by decide) c7run rfl

/-- A provider for the preview-mode scenario: the root has one selectable
member whose own single member is callable. -/
def pC4 : Provider :=
  { baseProv with
      dir := fun o => if o = 0 then ["a"] else if o = 1 then ["f"] else []
      getattr := fun o a =>
        if o = 0 && a = "a" then some 1
        else if o = 1 && a = "f" then some 2 else none
      callable := fun o => o = 2 }

def stW4 : Explorer := okExplorer (Explorer.make pC4 0 "root")

def st1W4 : Explorer := okExplorer (Explorer.step pC4 stW4 Op.enter)

/-- The explorer after drilling in, toggling the preview to source, and
popping back out. -/
def c4run : Explorer :=
  okExplorer (Explorer.run pC4 stW4 [Op.enter, Op.togglePrev, Op.back])

/-- Counterexample to claim C4 as stated: preview mode was `repr` when the
root frame was pushed away from; after toggling it to `source` one level
deeper and popping back, it is still `source` — every frame shares the one
overview layout instance, so pop does not restore preview mode. -/
theorem c4_preview_not_restored :
    (stW4.olHeap stW4.overview_layout).preview_state = PrevState.repr ∧
    c4run.stack.length = 1 ∧
    (c4run.olHeap c4run.overview_layout).preview_state = PrevState.source ∧
    PrevState.source ≠ PrevState.repr := by
  refine ⟨by decide, by decide, by decide, by decide⟩

/-- Witness for the amended C4: an immediate push-then-pop restores the
root frame's explorer layout. -/
theorem c4_pop_restores_selection_witness :
    st1W4.popFrame.explorer_layout = stW4.explorer_layout ∧
    st1W4.popFrame.elHeap st1W4.popFrame.explorer_layout
      = stW4.elHeap stW4.explorer_layout := by
  have hFresh : ∀ fr ∈ stW4.stack, fr.explorer_layout < stW4.nextEL := by
    intro fr hfr
    have hs : stW4.stack = [(stW4.stack.getLast?).getD frW] := rfl
    rw [hs] at hfr
    simp only [List.mem_singleton] at hfr
    subst hfr
    decide
  have hmid : ∀ i s, Explorer.run pC4 st1W4 (([] : List Op).take i) = Except.ok s →
      stW4.stack.length < s.stack.length := by
    intro i s h
    simp only [List.take_nil, Explorer.run, Except.ok.injEq] at h
    subst h
    decide
  exact c4_pop_restores_selection pC4 stW4 st1W4 st1W4 []
    ((stW4.stack.getLast?).getD frW)
    rfl hFresh rfl rfl rfl (by decide) rfl hmid (by decide)
